import Mathlib

/-!
Verification of the Jira MCP client's structured-field round-trip engine
(`jira-client.ts`): the ADF (Atlassian Document Format) text extraction,
the three-section Progress Update template parser and generator, the
merge engine `updateProgressField`, custom-field type coercion, and the
issue-creation field construction.

Strings are modelled as `List Char` (JS strings are sequences of code
units; the claims only involve code-point-level operations). JS numbers
are modelled as rationals. JS regular expressions that appear in the
source are implemented by dedicated matcher functions that realize the
exact leftmost-match semantics of each concrete pattern, including the
line-terminator set excluded by `.` and the full `\s` whitespace set.
Two value layers are used: `ADF` is the array-shaped fragment the
generator produces, and `ADV` is the full wire-value space on which the
source's unguarded `content` iterations can raise a `TypeError`; the
`embed…` theorems connect the two.
-/

namespace JiraMCP

abbrev Str := List Char

/-- The apostrophe character, U+0027. -/
def aposC : Char := Char.ofNat 39

/-- The right single quotation mark, U+2019 (a "curly" apostrophe). -/
def curlyApos : Char := Char.ofNat 0x2019

/-- JS whitespace: the set matched by `\s` in a regex and stripped by
`String.prototype.trim` — tab, LF, VT, FF, CR, space, NBSP, the Ogham
space mark, the Unicode space separators U+2000–U+200A, the line and
paragraph separators U+2028/U+2029, the narrow no-break and medium
mathematical spaces, the ideographic space, and the BOM U+FEFF. -/
def isWS (c : Char) : Bool :=
  c.toNat = 32 || c.toNat = 9 || c.toNat = 10 || c.toNat = 11 || c.toNat = 12 ||
  c.toNat = 13 || c.toNat = 160 || c.toNat = 5760 ||
  (8192 ≤ c.toNat && c.toNat ≤ 8202) ||
  c.toNat = 8232 || c.toNat = 8233 || c.toNat = 8239 || c.toNat = 8287 ||
  c.toNat = 12288 || c.toNat = 65279

/-- A JS line terminator (`\n`, `\r`, U+2028, U+2029): the characters a
regex `.` (without the `s` flag) does not match. -/
def isLineTerm (c : Char) : Bool :=
  c.toNat = 10 || c.toNat = 13 || c.toNat = 8232 || c.toNat = 8233

/-- The character set a regex `.` matches: everything except a line
terminator. -/
def notLT (c : Char) : Bool := !(isLineTerm c)

/-- Models `String.prototype.trimStart`. -/
def trimLeft (s : Str) : Str := s.dropWhile isWS

/-- Models `String.prototype.trimEnd`. -/
def trimRight (s : Str) : Str := (s.reverse.dropWhile isWS).reverse

/-- Models `String.prototype.trim`. -/
def trim (s : Str) : Str := trimRight (trimLeft s)

/-- Models `Array.prototype.join(' ')` on a list of strings. -/
def joinSp : List Str → Str
  | [] => []
  | [x] => x
  | x :: xs => x ++ ' ' :: joinSp xs

/-- Models `Array.prototype.join(sep)` on a list of strings. -/
def joinSep (sep : Str) : List Str → Str
  | [] => []
  | [x] => x
  | x :: xs => x ++ sep ++ joinSep sep xs

/-- Substring test: true iff `pat` occurs contiguously in `s`
(models `String.prototype.includes`). -/
def containsSub (pat : Str) : Str → Bool
  | [] => pat.isPrefixOf []
  | c :: cs => pat.isPrefixOf (c :: cs) || containsSub pat cs

/-- ASCII lower-casing (models `toLowerCase` on the ASCII names used here). -/
def toLowerStr (s : Str) : Str := s.map Char.toLower

/-- Unicode full uppercase of one character, as `String.prototype.toUpperCase`
applies it, restricted to the characters whose full uppercase is a string of
ASCII letters: the ASCII letters a–z, dotless ı → I, long ſ → S, ß → SS, and
the Latin ligatures ﬀ ﬁ ﬂ ﬃ ﬄ ﬅ ﬆ. Every other character is returned
unchanged, which leaves every equality test against an all-ASCII-letter
keyword (`'TSSE'`) unaffected: the true uppercase of any unlisted character
contains at least one code point that is not an ASCII letter. -/
def jsUpperChar (c : Char) : Str :=
  if 97 ≤ c.toNat ∧ c.toNat ≤ 122 then [Char.ofNat (c.toNat - 32)]
  else if c.toNat = 0x131 then ['I']
  else if c.toNat = 0x17F then ['S']
  else if c.toNat = 0xDF then ['S', 'S']
  else if c.toNat = 0xFB00 then ['F', 'F']
  else if c.toNat = 0xFB01 then ['F', 'I']
  else if c.toNat = 0xFB02 then ['F', 'L']
  else if c.toNat = 0xFB03 then ['F', 'F', 'I']
  else if c.toNat = 0xFB04 then ['F', 'F', 'L']
  else if c.toNat = 0xFB05 then ['S', 'T']
  else if c.toNat = 0xFB06 then ['S', 'T']
  else [c]

/-- Models `String.prototype.toUpperCase`: the concatenation of the
characters' full uppercase mappings. -/
def jsToUpper : Str → Str
  | [] => []
  | c :: cs => jsUpperChar c ++ jsToUpper cs

/-- Attributes of an ADF emoji node (`shortName`, `id`, `text`). -/
structure EmojiAttrs where
  shortName : Str
  id : Str
  text : Str
deriving DecidableEq, Repr

/-- The array-shaped fragment of ADF values: either a primitive value
(`scalar`), or an object with the optional fields the code reads —
`type`, `text`, a `strong` mark on the `marks` array, emoji `attrs`, and
a `content` that, when present, is an array. `content = some []` models
an empty array (truthy in JS), `none` an absent field. The generator
only produces values of this shape; arbitrary wire values, where
`content` may be a non-array and array elements may be `null` (the
source's `TypeError` paths), are modelled by `ADV` below, and
`embedADF` injects this fragment into them. -/
inductive ADF where
  | scalar
  | node (ty : Option Str) (tx : Option Str) (strong : Bool)
      (attrs : Option EmojiAttrs) (content : Option (List ADF))

def adfType : ADF → Option Str
  | .scalar => none
  | .node ty _ _ _ _ => ty

def adfContent : ADF → Option (List ADF)
  | .scalar => none
  | .node _ _ _ _ c => c

/-- JS truthiness of an optional string field. -/
def txTruthy : Option Str → Bool
  | some (_ :: _) => true
  | _ => false

mutual

/-- Models `extractTextFromADFNode`: a text node with truthy text returns
its text; a node with a content array recursively extracts its children,
space-joined and trimmed; anything else extracts as the empty string. -/
def extractTextFromADFNode : ADF → Str
  | .scalar => []
  | .node ty tx _ _ content =>
    if ty = some "text".toList ∧ txTruthy tx then tx.getD []
    else match content with
      | some l => trim (joinSp (extractList l))
      | none => []

def extractList : List ADF → List Str
  | [] => []
  | n :: ns => extractTextFromADFNode n :: extractList ns

end

mutual

/-- Models the inner `extractText` of `extractTextFromADF`: like the node
extractor but with no per-level trim. -/
def extractInner : ADF → Str
  | .scalar => []
  | .node ty tx _ _ content =>
    if ty = some "text".toList ∧ txTruthy tx then tx.getD []
    else match content with
      | some l => joinSpInner l
      | none => []

def joinSpInner : List ADF → Str
  | [] => []
  | [n] => extractInner n
  | n :: ns => extractInner n ++ ' ' :: joinSpInner ns

end

/-- Models `extractTextFromADF`: extracts the document's top-level content
(space-joined, no inner trim) and trims once at the end. -/
def extractTextFromADF : ADF → Str
  | .scalar => []
  | .node _ _ _ _ none => []
  | .node _ _ _ _ (some l) => trim (joinSpInner l)

/-- One bullet-list item of `extractBulletListItems`: the item's blocks
are extracted, space-joined and trimmed (empty when the item has no
content). -/
def bulletItem (item : ADF) : Str :=
  match adfContent item with
  | some ic => trim (joinSp (ic.map extractTextFromADFNode))
  | none => []

/-- Models `extractBulletListItems`: for a `bulletList` node, each list
item's blocks are extracted, space-joined and trimmed; empty items are
filtered out. -/
def extractBulletListItems (node : ADF) : List Str :=
  match node with
  | .scalar => []
  | .node ty _ _ _ content =>
    if ty = some "bulletList".toList then
      match content with
      | some l => (l.map bulletItem).filter (fun t => t ≠ [])
      | none => []
    else []

/-! ### Regex matchers

Each JS regex in the parser is realized by a `…Try` function that attempts
a match at the start of the string, and a scanning function that returns
the leftmost match, exactly as the JS engine does for these patterns (no
backtracking is possible in them beyond what is implemented: a `[^:]+` run
ends at the first `:` — it crosses line terminators — and `(.*)` stops at
the first line terminator). -/

/-- The literal `Update for week of ` (with trailing space). -/
def litWeek : Str := "Update for week of ".toList

/-- Match of `Update for week of ([^:]+):(.*)` after the literal: the
group `[^:]+` is the maximal non-colon run, which must be nonempty and
followed by `:`; `(.*)` then takes the rest up to the next line
terminator. -/
def weeklyTail (rest : Str) : Option (Str × Str) :=
  if rest.takeWhile (· ≠ ':') ≠ [] ∧
      (rest.drop (rest.takeWhile (· ≠ ':')).length).head? = some ':' then
    some (rest.takeWhile (· ≠ ':'),
      ((rest.drop (rest.takeWhile (· ≠ ':')).length).drop 1).takeWhile notLT)
  else none

/-- Match of `Update for week of ([^:]+):(.*)` at the start of `s`. -/
def weeklyTry (s : Str) : Option (Str × Str) :=
  if litWeek.isPrefixOf s then weeklyTail (s.drop litWeek.length)
  else none

/-- Leftmost match of `Update for week of ([^:]+):(.*)` (used both by the
paragraph branch, with both groups, and — dropping the second group — by
the panel branch's `Update for week of ([^:]+):`). -/
def weeklyMatch : Str → Option (Str × Str)
  | [] => none
  | c :: cs =>
    match weeklyTry (c :: cs) with
    | some r => some r
    | none => weeklyMatch cs

/-- The character class from the source regexes: the class is written with
two (identical) straight apostrophes, so only U+0027 matches. -/
def jsAposClass : List Char := [aposC, aposC]

def dLitA : Str := "What we".toList
def dLitB : Str := "ve delivered so far:".toList

/-- After the first literal of the delivered-header regex: one character
of the apostrophe class (its two entries are both the straight
apostrophe), then the second literal, then `(.*)` — the rest up to the
next line terminator. -/
def deliveredTail (rest : Str) : Option Str :=
  if (rest.head? = some aposC ∨ rest.head? = some aposC) ∧
      dLitB.isPrefixOf (rest.drop 1) then
    some (((rest.drop 1).drop dLitB.length).takeWhile notLT)
  else none

/-- Match of the delivered-header regex at the start of `s`:
`What we` + apostrophe class + `ve delivered so far:` + rest of line. -/
def deliveredTry (s : Str) : Option Str :=
  if dLitA.isPrefixOf s then deliveredTail (s.drop dLitA.length)
  else none

/-- Leftmost match of the delivered-header regex. -/
def deliveredMatch : Str → Option Str
  | [] => none
  | c :: cs =>
    match deliveredTry (c :: cs) with
    | some r => some r
    | none => deliveredMatch cs

def wLitA : Str := "What".toList
def wLitB : Str := "s next:".toList

/-- After the first literal of the whats-next-header regex. -/
def whatsNextTail (rest : Str) : Option Str :=
  if (rest.head? = some aposC ∨ rest.head? = some aposC) ∧
      wLitB.isPrefixOf (rest.drop 1) then
    some (((rest.drop 1).drop wLitB.length).takeWhile notLT)
  else none

/-- Match of the whats-next-header regex at the start of `s`:
`What` + apostrophe class + `s next:` + rest of line. -/
def whatsNextTry (s : Str) : Option Str :=
  if wLitA.isPrefixOf s then whatsNextTail (s.drop wLitA.length)
  else none

/-- Leftmost match of the whats-next-header regex. -/
def whatsNextMatch : Str → Option Str
  | [] => none
  | c :: cs =>
    match whatsNextTry (c :: cs) with
    | some r => some r
    | none => whatsNextMatch cs

/-- Models the source's `panelHeader.replace(…)` whose character class
holds only the straight apostrophe, replaced by a straight apostrophe:
a no-op, kept faithful to the source. -/
def normalizeApos (s : Str) : Str := s.map (fun c => if c = aposC then aposC else c)

/-! ### The template parser -/

inductive Sect where
  | weekly | delivered | whatsNext
deriving DecidableEq, Repr

/-- The three semantic fields recovered from a Progress Update document. -/
structure ProgressTemplate where
  weeklyUpdate : Str
  delivered : Str
  whatsNext : Str
deriving DecidableEq, Repr

/-- The parser's initial/default result. -/
def defaultTemplate : ProgressTemplate :=
  { weeklyUpdate := "[date]".toList, delivered := [], whatsNext := [] }

/-- One step of the panel-children scan: a heading child (over)writes the
panel header, a bulletList child appends its items. -/
def panelChildStep (acc : Str × List Str) (pc : ADF) : Str × List Str :=
  let hdr := if adfType pc = some "heading".toList then extractTextFromADFNode pc else acc.1
  let items := if adfType pc = some "bulletList".toList
    then acc.2 ++ extractBulletListItems pc else acc.2
  (hdr, items)

def sepDash : Str := " - ".toList
def sepDot : Str := ". ".toList

/-- The weekly branch's date token: `Update for week of ([^:]+):` on the
panel header, the trimmed group when there is a match and `[date]`
otherwise. -/
def panelWeekOf (hdr : Str) : Str :=
  match weeklyMatch hdr with
  | some g => trim g.1
  | none => "[date]".toList

/-- The weekly value assigned by the panel branch: the date token, with
the bullet items appended after ` - ` (`.`-joined) when there are any. -/
def panelWeekly (hdr : Str) (items : List Str) : Str :=
  if items ≠ [] then panelWeekOf hdr ++ sepDash ++ joinSep sepDot items
  else panelWeekOf hdr

/-- The section assignment a panel makes once its children have been
scanned into a header and an item list: the (no-op) apostrophe
normalization, then the three `includes` tests in order. Shared by the
`ADF`-shaped and the wire-value parsers. -/
def panelAssign (r : ProgressTemplate) (hdr : Str) (items : List Str) :
    ProgressTemplate :=
  if containsSub "Update for week of".toList (normalizeApos hdr) then
    { r with weeklyUpdate := panelWeekly hdr items }
  else if containsSub "delivered so far".toList (normalizeApos hdr) then
    { r with delivered := joinSep sepDot items }
  else if containsSub ("What".toList ++ aposC :: "s next".toList) (normalizeApos hdr) then
    { r with whatsNext := joinSep sepDot items }
  else r

/-- The panel branch of `parseProgressUpdateADF` for one panel's children.
The current section is left unchanged (the source's panel branch never
assigns `currentSection`). -/
def parsePanel (st : Option Sect × ProgressTemplate) (children : List ADF) :
    Option Sect × ProgressTemplate :=
  (st.1, panelAssign st.2 (children.foldl panelChildStep ([], [])).1
    (children.foldl panelChildStep ([], [])).2)

/-- The paragraph-branch logic of `parseProgressUpdateADF` on the
paragraph's extracted text: match the three header regexes in order;
otherwise treat non-blank text as continuation of the active section.
Shared by the `ADF`-shaped and the wire-value parsers. -/
def parseParagraphText (st : Option Sect × ProgressTemplate) (t : Str) :
    Option Sect × ProgressTemplate :=
  let cur := st.1
  let r := st.2
  match weeklyMatch t with
  | some g =>
    let w := trim g.1
    let w := if trim g.2 ≠ [] then w ++ sepDash ++ trim g.2 else w
    (some .weekly, { r with weeklyUpdate := w })
  | none =>
  match deliveredMatch t with
  | some g => (some .delivered, { r with delivered := trim g })
  | none =>
  match whatsNextMatch t with
  | some g => (some .whatsNext, { r with whatsNext := trim g })
  | none =>
  if trim t ≠ [] then
    match cur with
    | some .weekly =>
      let sep := if containsSub sepDash r.weeklyUpdate then sepDot else sepDash
      (cur, { r with weeklyUpdate := r.weeklyUpdate ++ sep ++ trim t })
    | some .delivered =>
      let sep := if r.delivered ≠ [] then sepDot else ([] : Str)
      (cur, { r with delivered := r.delivered ++ sep ++ trim t })
    | some .whatsNext =>
      let sep := if r.whatsNext ≠ [] then sepDot else ([] : Str)
      (cur, { r with whatsNext := r.whatsNext ++ sep ++ trim t })
    | none => (cur, r)
  else (cur, r)

/-- The paragraph branch of `parseProgressUpdateADF` for one paragraph
block `b` (which has a content array): parse its extracted text. -/
def parseParagraph (st : Option Sect × ProgressTemplate) (b : ADF) :
    Option Sect × ProgressTemplate :=
  parseParagraphText st (extractTextFromADFNode b)

/-- One top-level block of the parse loop: panels with content take the
panel branch, paragraphs with content the paragraph branch; everything
else is skipped. -/
def parseStep (st : Option Sect × ProgressTemplate) (block : ADF) :
    Option Sect × ProgressTemplate :=
  match adfType block, adfContent block with
  | some ty, some children =>
    if ty = "panel".toList then parsePanel st children
    else if ty = "paragraph".toList then parseParagraph st block
    else st
  | _, _ => st

/-- Models `parseProgressUpdateADF`: defaults for non-objects or documents
without a content array; otherwise a fold of `parseStep` over the
top-level blocks. -/
def parseProgressUpdateADF : ADF → ProgressTemplate
  | .scalar => defaultTemplate
  | .node _ _ _ _ none => defaultTemplate
  | .node _ _ _ _ (some blocks) => (blocks.foldl parseStep (none, defaultTemplate)).2

/-! ### The template generator -/

/-- Does the string end with a colon (models `text.endsWith(':')`)? -/
def endsWithColon (s : Str) : Bool := s.getLast? = some ':'

/-- Models `createADFParagraph`: an optional emoji node followed by a text
run; with an emoji, the text is prefixed by a space; the run carries a
`strong` mark exactly when the (un-prefixed) text ends with a colon. -/
def createADFParagraph (text : Str) (emoji : Option EmojiAttrs) : ADF :=
  let txt := match emoji with
    | some _ => ' ' :: text
    | none => text
  let tnode := ADF.node (some "text".toList) (some txt) (endsWithColon text) none none
  let content := match emoji with
    | some e => [ADF.node (some "emoji".toList) none false (some e) none, tnode]
    | none => [tnode]
  ADF.node (some "paragraph".toList) none false none (some content)

/-- Models `createADFDocument`: one paragraph holding one unmarked text
run (the document's `version: 1` field plays no role here). -/
def createADFDocument (text : Str) : ADF :=
  ADF.node (some "doc".toList) none false none
    (some [ADF.node (some "paragraph".toList) none false none
      (some [ADF.node (some "text".toList) (some text) false none none])])

def infoEmoji : EmojiAttrs :=
  { shortName := ":info:".toList, id := "atlassian-info".toList, text := ":info:".toList }

def checkEmoji : EmojiAttrs :=
  { shortName := ":check_mark:".toList, id := "atlassian-check_mark".toList,
    text := ":check_mark:".toList }

def questionEmoji : EmojiAttrs :=
  { shortName := ":question:".toList, id := "atlassian-question_mark".toList,
    text := ":question:".toList }

def deliveredHeader : Str := dLitA ++ aposC :: dLitB
def whatsNextHeader : Str := wLitA ++ aposC :: wLitB

/-- Models `createProgressUpdateADF`: the canonical three-paragraph
encoding. The delivered and whats-next header texts are the header phrase
followed by a space and the section content. -/
def createProgressUpdateADF (weeklyUpdate delivered whatsNext : Str) : ADF :=
  ADF.node (some "doc".toList) none false none (some [
    createADFParagraph (litWeek ++ weeklyUpdate ++ [':']) (some infoEmoji),
    createADFParagraph (deliveredHeader ++ ' ' :: delivered) (some checkEmoji),
    createADFParagraph (whatsNextHeader ++ ' ' :: whatsNext) (some questionEmoji)])

/-! ### The merge engine (`updateProgressField`)

The network fetch and persist are collaborators; the merge logic itself is
pure once the fetched value and the formatted current date are inputs. -/

/-- The regex class `[A-Z]` (by code point). -/
def isUpper (c : Char) : Bool := 65 ≤ c.toNat && c.toNat ≤ 90

/-- The regex class `[a-z]` (by code point). -/
def isLower (c : Char) : Bool := 97 ≤ c.toNat && c.toNat ≤ 122

/-- The regex class `\d` = `[0-9]` (by code point). -/
def isDigitC (c : Char) : Bool := 48 ≤ c.toNat && c.toNat ≤ 57

/-- Consume `\s*-?\s*`: optional whitespace, an optional dash, optional
whitespace; returns the remainder. -/
def wsDashWs (s : Str) : Str :=
  let s1 := s.dropWhile isWS
  let s2 := match s1 with
    | '-' :: r => r
    | _ => s1
  s2.dropWhile isWS

/-- Stage of the date regex after `\d{1,2}` and `,`: expects the space
of `, `, then exactly four digits (`\d{4}`), then `\s*-?\s*`. -/
def dateStripYear : Str → Option Str
  | ',' :: ' ' :: r3 =>
    if (r3.take 4).length = 4 ∧ (r3.take 4).all isDigitC then
      some (wsDashWs (r3.drop 4))
    else none
  | _ => none

/-- Stage of the date regex after `[A-Z][a-z]+`: expects the space, then
`\d{1,2}` — the maximal digit run must have length 1 or 2 and be
followed by the comma (the regex backtracks through no other
possibility). -/
def dateStripDay : Str → Option Str
  | ' ' :: r2 =>
    if (r2.takeWhile isDigitC).length = 1 ∨ (r2.takeWhile isDigitC).length = 2 then
      dateStripYear (r2.drop (r2.takeWhile isDigitC).length)
    else none
  | _ => none

/-- Stage of the date regex after `[A-Z]`: the `[a-z]+` run (nonempty
maximal lowercase run). -/
def dateStripMonth (rest : Str) : Option Str :=
  if rest.takeWhile isLower = [] then none
  else dateStripDay (rest.drop (rest.takeWhile isLower).length)

/-- Anchored match of `[A-Z][a-z]+ \d{1,2}, \d{4}\s*-?\s*` (the
formatted-date prefix): returns the remainder after the match, if any. -/
def dateStripAux : Str → Option Str
  | [] => none
  | c :: rest => if isUpper c then dateStripMonth rest else none

/-- Strip a leading formatted-date prefix, if present. -/
def dateStrip (s : Str) : Str := (dateStripAux s).getD s

/-- Strip a leading `[date]` placeholder prefix (with `\s*-?\s*`), if
present. -/
def placeholderStrip (s : Str) : Str :=
  if "[date]".toList.isPrefixOf s then wsDashWs (s.drop 6) else s

/-- The refresh-date computation on the parsed `weeklyUpdate`: strip a
formatted-date prefix, then a `[date]` prefix, trim, and re-prepend the
current date (with ` - ` when a narrative tail remains). -/
def refreshWeekly (currentDate w : Str) : Str :=
  if trim (placeholderStrip (dateStrip w)) = [] then currentDate
  else currentDate ++ sepDash ++ trim (placeholderStrip (dateStrip w))

/-- The caller's options to `updateProgressField`. An absent `refreshDate`
and `refreshDate: false` behave identically in the source (only its
truthiness is read), so a `Bool` models it. -/
structure UpdateOptions where
  refreshDate : Bool
  weeklyUpdate : Option Str
  delivered : Option Str
  whatsNext : Option Str

/-- The merge's outcome: the final semantic triple, the section labels in
evaluation order, the parsed pre-update state, and the regenerated
document that is persisted. -/
structure MergeResult where
  weeklyUpdate : Str
  delivered : Str
  whatsNext : Str
  updatedSections : List Str
  parsedExisting : ProgressTemplate
  document : ADF

/-- Models the pure logic of `updateProgressField`, with the fetched field
value and the formatted current date as inputs. -/
def updateProgressField (currentValue : ADF) (opts : UpdateOptions)
    (currentDate : Str) : MergeResult :=
  let existing := parseProgressUpdateADF currentValue
  let w0 := existing.weeklyUpdate
  let w1 := if opts.refreshDate then refreshWeekly currentDate w0 else w0
  let sections1 := if opts.refreshDate then ["weeklyUpdate (date refreshed)".toList] else []
  let w2 := match opts.weeklyUpdate with
    | some v => if v = [] then currentDate else currentDate ++ sepDash ++ v
    | none => w1
  let sections2 := sections1 ++
    (match opts.weeklyUpdate with
      | some _ => ["weeklyUpdate".toList]
      | none => [])
  let d := match opts.delivered with
    | some v => v
    | none => existing.delivered
  let sections3 := sections2 ++
    (match opts.delivered with
      | some _ => ["delivered".toList]
      | none => [])
  let n := match opts.whatsNext with
    | some v => v
    | none => existing.whatsNext
  let sections4 := sections3 ++
    (match opts.whatsNext with
      | some _ => ["whatsNext".toList]
      | none => [])
  { weeklyUpdate := w2, delivered := d, whatsNext := n,
    updatedSections := sections4, parsedExisting := existing,
    document := createProgressUpdateADF w2 d n }

/-! ### Custom-field registry and type coercion -/

/-- Association-list lookup on string keys (first match). -/
def lookupStr {β : Type} (k : Str) : List (Str × β) → Option β
  | [] => none
  | (k', v) :: rest => if k = k' then some v else lookupStr k rest

def CUSTOM_FIELD_MAP : List (Str × Str) := [
  ("customfield_15111".toList, "Decision Needed".toList),
  ("customfield_15112".toList, "Progress Update".toList),
  ("customfield_15113".toList, "Decision Maker(s)".toList),
  ("customfield_15115".toList, "Risks/Blockers".toList),
  ("customfield_15116".toList, "Completion Percentage".toList),
  ("customfield_15117".toList, "Health Status".toList)]

/-- Reverse index: lowercased display name to field id. -/
def FIELD_NAME_TO_ID : List (Str × Str) :=
  CUSTOM_FIELD_MAP.map (fun p => (toLowerStr p.2, p.1))

inductive FieldType where
  | richtext | user | number | select
deriving DecidableEq, Repr

def CUSTOM_FIELD_TYPES : List (Str × FieldType) := [
  ("customfield_15111".toList, .richtext),
  ("customfield_15112".toList, .richtext),
  ("customfield_15113".toList, .user),
  ("customfield_15115".toList, .richtext),
  ("customfield_15116".toList, .number),
  ("customfield_15117".toList, .select)]

/-- Models `resolveFieldId`: pass through `customfield_…` ids, otherwise a
case-insensitive name lookup; unknown names fail. -/
def resolveFieldId (s : Str) : Except Str Str :=
  if "customfield_".toList.isPrefixOf s then .ok s
  else match lookupStr (toLowerStr s) FIELD_NAME_TO_ID with
    | some id => .ok id
    | none => .error ("Unknown field: ".toList ++ s)

/-- A JS value as it flows through field coercion and issue creation.
`num` is a JS number (modelled as a rational — `NaN` has no counterpart
here), `strv` a string; the remaining constructors are the object shapes
the code builds (`typeof` of each is `'object'`). -/
inductive JSVal where
  | num (q : ℚ)
  | strv (s : Str)
  | adfDoc (d : ADF)
  | account (accountId : Str)
  | selectVal (value : Str)
  | nameObj (nm : Str)
  | keyObj (k : Str)
  | strList (l : List Str)
  | nameObjList (l : List Str)

/-- Is the value a JS object (`typeof value === 'object'`)? -/
def isObjectVal : JSVal → Bool
  | .num _ => false
  | .strv _ => false
  | _ => true

/-- Digits-to-number helper for the `parseFloat` model. -/
def digitsToNat (ds : Str) : Nat :=
  ds.foldl (fun acc c => acc * 10 + (c.toNat - '0'.toNat)) 0

def natToStr (n : Nat) : Str := Nat.toDigits 10 n

def intToStr : Int → Str
  | .ofNat n => natToStr n
  | .negSucc n => '-' :: natToStr (n + 1)

/-- Models `String()` on a number, as far as the claims need: integers
print exactly; other rationals print as `num/den` (a stand-in — no claim
exercises non-integer number-to-string conversion). -/
def ratToStr (q : ℚ) : Str :=
  if q.den = 1 then intToStr q.num else intToStr q.num ++ '/' :: natToStr q.den

/-- Models `String(value)` for the coercion paths: strings pass through,
numbers print, arrays join with commas, other objects print as
`[object Object]`. -/
def jsString : JSVal → Str
  | .strv s => s
  | .num q => ratToStr q
  | .strList l => joinSep [','] l
  | .nameObjList l => joinSep [','] (l.map (fun _ => "[object Object]".toList))
  | _ => "[object Object]".toList

/-- Models JS `parseFloat` on plain decimal literals (optional sign,
digits, optional fraction); `none` models `NaN`. Exponent and special
forms are outside every claim's inputs. -/
def jsParseFloat (s : Str) : Option ℚ :=
  let s1 := s.dropWhile isWS
  let signed := match s1 with
    | '-' :: r => (true, r)
    | '+' :: r => (false, r)
    | _ => (false, s1)
  let neg := signed.1
  let s2 := signed.2
  let intd := s2.takeWhile isDigitC
  let s3 := s2.drop intd.length
  let fracd := match s3 with
    | '.' :: r => r.takeWhile isDigitC
    | _ => []
  if intd = [] ∧ fracd = [] then none
  else
    let v : ℚ := (digitsToNat intd : ℚ) + (digitsToNat fracd : ℚ) / ((10 : ℚ) ^ fracd.length)
    some (if neg then -v else v)

def completionPercentageId : Str := "customfield_15116".toList

/-- Models the value-formatting switch of `updateIssueField`: resolve the
field, then coerce by registered type. For the number type the value is
parsed (a non-numeric value is an error), and for the Completion
Percentage field it is divided by 100 — the wire format is a 0.0–1.0
fraction. -/
def updateIssueFieldWire (fieldNameOrId : Str) (value : JSVal) :
    Except Str (Str × JSVal) :=
  match resolveFieldId fieldNameOrId with
  | .error e => .error e
  | .ok fieldId =>
    match lookupStr fieldId CUSTOM_FIELD_TYPES with
    | some .richtext =>
      match value with
      | .adfDoc d => .ok (fieldId, .adfDoc d)
      | v => .ok (fieldId, .adfDoc (createADFDocument (jsString v)))
    | some .number =>
      let parsed := match value with
        | .num q => some q
        | v => jsParseFloat (jsString v)
      match parsed with
      | none => .error "Invalid number value".toList
      | some q =>
        let wire := if fieldId = completionPercentageId then q / 100 else q
        .ok (fieldId, .num wire)
    | some .select =>
      if isObjectVal value then .ok (fieldId, value)
      else .ok (fieldId, .selectVal (jsString value))
    | some .user =>
      if isObjectVal value then .ok (fieldId, value)
      else .ok (fieldId, .account (jsString value))
    | none => .ok (fieldId, value)

/-! ### Issue creation (`createIssue` field construction) -/

structure ProgressUpdateInput where
  weeklyUpdate : Option Str
  delivered : Option Str
  whatsNext : Option Str

structure CreateIssueOptions where
  projectKey : Str
  issueType : Str
  summary : Str
  description : Option Str := none
  assignee : Option Str := none
  priority : Option Str := none
  labels : Option (List Str) := none
  duedate : Option Str := none
  components : Option (List Str) := none
  healthStatus : Option Str := none
  completionPercentage : Option ℚ := none
  decisionNeeded : Option Str := none
  risksBlockers : Option Str := none
  progressUpdate : Option ProgressUpdateInput := none
  customFields : List (Str × JSVal) := []

/-- `resolveFieldId` specialized to the registry constants `createIssue`
uses; for those it always succeeds (the error branch is dead, kept total
by returning the input). -/
def resolveOk (s : Str) : Str :=
  match resolveFieldId s with
  | .ok i => i
  | .error _ => s

/-- Models the `fields` record built by `createIssue`, as an association
list in assignment order. The current user's account id, today's date
plus 30 days, and the formatted current date are wall-clock/remote inputs
passed as parameters. JS truthiness (`if (options.x)`) skips empty
strings as well as absent ones. -/
def createIssueFields (o : CreateIssueOptions) (currentUserAccountId : Str)
    (todayPlus30 : Str) (currentDate : Str) : Except Str (List (Str × JSVal)) :=
  let isTSSE := jsToUpper o.projectKey = "TSSE".toList
  let fields : List (Str × JSVal) := [
    ("project".toList, .keyObj o.projectKey),
    ("issuetype".toList, .nameObj o.issueType),
    ("summary".toList, .strv o.summary)]
  let fields := fields ++
    (if o.description.getD [] ≠ []
      then [("description".toList, .adfDoc (createADFDocument (o.description.getD [])))]
      else [])
  let assignee := match o.assignee with
    | some a => some a
    | none => if isTSSE then some "currentuser()".toList else none
  let fields := fields ++
    (match assignee with
      | some a =>
        if a ≠ [] then
          if toLowerStr a = "currentuser()".toList
            then [("assignee".toList, JSVal.account currentUserAccountId)]
            else [("assignee".toList, JSVal.account a)]
        else []
      | none => [])
  let fields := fields ++
    (if o.priority.getD [] ≠ []
      then [("priority".toList, .nameObj (o.priority.getD []))]
      else [])
  let labels := match o.labels with
    | some ls => some ls
    | none => if isTSSE then some ["EngProd".toList, "TSSP".toList] else none
  let fields := fields ++
    (match labels with
      | some ls => if ls.length > 0 then [("labels".toList, JSVal.strList ls)] else []
      | none => [])
  let dd0 := o.duedate.getD []
  let dd := if dd0 = [] ∧ isTSSE then todayPlus30 else dd0
  let fields := fields ++ (if dd ≠ [] then [("duedate".toList, .strv dd)] else [])
  let fields := fields ++
    (match o.components with
      | some cs => if cs.length > 0 then [("components".toList, JSVal.nameObjList cs)] else []
      | none => [])
  let fields := fields ++
    (if o.healthStatus.getD [] ≠ []
      then [(resolveOk "Health Status".toList, JSVal.selectVal (o.healthStatus.getD []))]
      else [])
  let fields := fields ++
    (match o.completionPercentage with
      | some v => [(resolveOk "Completion Percentage".toList, JSVal.num (v / 100))]
      | none => [])
  let fields := fields ++
    (if o.decisionNeeded.getD [] ≠ []
      then [(resolveOk "Decision Needed".toList,
        JSVal.adfDoc (createADFDocument (o.decisionNeeded.getD [])))]
      else [])
  let fields := fields ++
    (if o.risksBlockers.getD [] ≠ []
      then [(resolveOk "Risks/Blockers".toList,
        JSVal.adfDoc (createADFDocument (o.risksBlockers.getD [])))]
      else [])
  let fields := fields ++
    (match o.progressUpdate with
      | some pu =>
        [(resolveOk "Progress Update".toList,
          JSVal.adfDoc (createProgressUpdateADF
            (currentDate ++ '\n' :: (pu.weeklyUpdate.getD []))
            (pu.delivered.getD []) (pu.whatsNext.getD [])))]
      | none => [])
  match o.customFields.foldlM
    (fun (acc : List (Str × JSVal)) (kv : Str × JSVal) =>
      if "customfield_".toList.isPrefixOf kv.1 then Except.ok (acc ++ [kv])
      else match resolveFieldId kv.1 with
        | .ok fid => Except.ok (acc ++ [(fid, kv.2)])
        | .error e => Except.error e) [] with
  | .ok cf => .ok (fields ++ cf)
  | .error e => .error e

/-! ### Auxiliary definitions used by the verification -/

/-- The shape of `new Date().toLocaleDateString('en-US', …)` output:
a capitalized month word, a 1–2 digit day, a comma, and a 4-digit year. -/
def IsDateFormat (s : Str) : Prop :=
  ∃ (u : Char) (ml dd : Str) (y1 y2 y3 y4 : Char),
    s = u :: ml ++ ' ' :: dd ++ ',' :: ' ' :: [y1, y2, y3, y4] ∧
    isUpper u = true ∧ ml ≠ [] ∧ ml.all isLower = true ∧
    (dd.length = 1 ∨ dd.length = 2) ∧ dd.all isDigitC = true ∧
    [y1, y2, y3, y4].all isDigitC = true

mutual

/-- No descendant (the node itself included) is a text node with truthy
text. -/
def noTextNode : ADF → Bool
  | .scalar => true
  | .node ty tx _ _ content =>
    !(decide (ty = some "text".toList) && txTruthy tx) &&
      (match content with
        | some l => noTextNodeList l
        | none => true)

def noTextNodeList : List ADF → Bool
  | [] => true
  | n :: ns => noTextNode n && noTextNodeList ns

end

/-- The `update_progress` option set with only `refreshDate` set. -/
def refreshOnly : UpdateOptions :=
  { refreshDate := true, weeklyUpdate := none, delivered := none, whatsNext := none }

/-- The `update_progress` option set with only `delivered` set. -/
def deliveredOnly (v : Str) : UpdateOptions :=
  { refreshDate := false, weeklyUpdate := none, delivered := some v, whatsNext := none }

/-- A document whose single block is a paragraph holding one plain text
run. -/
def paraDoc (t : Str) : ADF :=
  ADF.node (some "doc".toList) none false none (some [
    ADF.node (some "paragraph".toList) none false none (some [
      ADF.node (some "text".toList) (some t) false none none])])

/-- A legacy panel-encoded document: a panel with a heading (one text run)
and a bullet list of single-paragraph items. -/
def panelDoc (heading : Str) (items : List Str) : ADF :=
  ADF.node (some "doc".toList) none false none (some [
    ADF.node (some "panel".toList) none false none (some (
      ADF.node (some "heading".toList) none false none (some [
        ADF.node (some "text".toList) (some heading) false none none]) ::
      [ADF.node (some "bulletList".toList) none false none (some (items.map (fun it =>
        ADF.node (some "listItem".toList) none false none (some [
          ADF.node (some "paragraph".toList) none false none (some [
            ADF.node (some "text".toList) (some it) false none none])]))))]))])

/-- A table node holding one row, one cell, one paragraph with one text
run — an ADF node kind the template system does not model, but which has
a textual descendant. -/
def tableWithText (t : Str) : ADF :=
  ADF.node (some "table".toList) none false none (some [
    ADF.node (some "tableRow".toList) none false none (some [
      ADF.node (some "tableCell".toList) none false none (some [
        ADF.node (some "paragraph".toList) none false none (some [
          ADF.node (some "text".toList) (some t) false none none])])])])

/-- Does the paragraph contain a text run carrying the bold (`strong`)
mark? -/
def hasStrongRun : ADF → Bool
  | .node _ _ _ _ (some l) =>
    l.any (fun c =>
      match c with
      | .node ty _ st _ _ => decide (ty = some "text".toList) && st
      | _ => false)
  | _ => false

/-- The `i`-th top-level block of a document (`scalar` when absent). -/
def nthBlock (d : ADF) (i : Nat) : ADF := ((adfContent d).getD []).getD i .scalar

/-- Issue-creation options carrying only the three required fields. -/
def basicIssueOptions (pk it sm : Str) : CreateIssueOptions :=
  { projectKey := pk, issueType := it, summary := sm }

/-- Issue-creation options with a completion percentage, for a non-TSSE
project. -/
def percentageIssueOptions (v : ℚ) : CreateIssueOptions :=
  { projectKey := "PROJ".toList, issueType := "Task".toList, summary := "S".toList,
    completionPercentage := some v }

/-- A block the parse loop skips entirely: neither a panel nor a
paragraph, or no content array. -/
def skippedBlock (b : ADF) : Bool :=
  match adfType b, adfContent b with
  | some ty, some _ => !(decide (ty = "panel".toList)) && !(decide (ty = "paragraph".toList))
  | _, _ => true

/-! ### Wire values and the error paths

`ADF` covers the array-shaped fragment the generator produces. The
parser and the document-level extractor, however, receive arbitrary
values from the wire, and the source iterates a block's `content`
without an `Array.isArray` guard in several places — a truthy non-array
`content`, or a `null` element inside a content array, raises a
`TypeError`. The `ADV` type keeps those shapes: `content` holds an
arbitrary value and arrays hold arbitrary elements, while scalar-typed
fields (`type`, `text`, emoji `attrs`) stay at the types the code's
casts expect. The wire functions return `Except JSErr` and the
`embedADF` refinement connects them to the `ADF` fragment. -/

/-- The runtime error raised by the unguarded iterations. -/
inductive JSErr where
  | typeError
deriving DecidableEq, Repr

/-- A JS value as the parser may receive it: `null` (also `undefined`),
a boolean, number or string primitive, an array, or an object carrying
the fields the code reads. -/
inductive ADV where
  | vnull
  | vbool (b : Bool)
  | vnum (q : ℚ)
  | vstr (s : Str)
  | varr (xs : List ADV)
  | vobj (ty : Option Str) (tx : Option Str) (attrs : Option EmojiAttrs)
      (content : Option ADV)

/-- JS truthiness of a value (objects and arrays are always truthy). -/
def vTruthy : ADV → Bool
  | .vnull => false
  | .vbool b => b
  | .vnum q => decide (q ≠ 0)
  | .vstr s => decide (s ≠ [])
  | .varr _ => true
  | .vobj _ _ _ _ => true

mutual

/-- `extractTextFromADFNode` over wire values: total, because its
content recursion is guarded by `Array.isArray` — a truthy non-array
content simply extracts as the empty string. Reading the fields of a
`null` node is prevented by the function's own `!node` guard. -/
def extractNodeV : ADV → Str
  | .vobj ty tx _ content =>
    if ty = some "text".toList ∧ txTruthy tx then tx.getD []
    else match content with
      | some (.varr l) => trim (joinSp (extractNodeListV l))
      | _ => []
  | _ => []

def extractNodeListV : List ADV → List Str
  | [] => []
  | n :: ns => extractNodeV n :: extractNodeListV ns

end

/-- One bullet-list item over wire values: reading `.content` of a
`null` item throws, and a truthy non-array item content reaches an
unguarded `.map` (arrays are always truthy). -/
def bulletItemV : ADV → Except JSErr Str
  | .vnull => .error .typeError
  | .vobj _ _ _ (some (.varr l)) => .ok (trim (joinSp (l.map extractNodeV)))
  | .vobj _ _ _ (some c) => if vTruthy c then .error .typeError else .ok []
  | _ => .ok []

/-- The item map of `extractBulletListItems` (elementwise, first throw
propagates). -/
def bulletItemsV : List ADV → Except JSErr (List Str)
  | [] => .ok []
  | i :: is =>
    match bulletItemV i with
    | .error e => .error e
    | .ok t =>
      match bulletItemsV is with
      | .error e => .error e
      | .ok ts => .ok (t :: ts)

/-- `extractBulletListItems` over wire values: for a `bulletList` node a
truthy non-array `content` reaches an unguarded `.map` and throws;
otherwise the items are mapped and the empties filtered out. -/
def extractBulletListItemsV : ADV → Except JSErr (List Str)
  | .vobj ty _ _ (some c) =>
    if ty = some "bulletList".toList then
      match c with
      | .varr items =>
        match bulletItemsV items with
        | .ok ts => .ok (ts.filter (fun t => t ≠ []))
        | .error e => .error e
      | _ => if vTruthy c then .error .typeError else .ok []
    else .ok []
  | _ => .ok []

/-- One panel child of the source's `for..of` body: reading `.type` of a
`null` child throws; a heading child rewrites the header, a `bulletList`
child appends its items (and can itself throw); every other value is
skipped. -/
def panelChildStepV (acc : Str × List Str) (pc : ADV) :
    Except JSErr (Str × List Str) :=
  match pc with
  | .vnull => .error .typeError
  | .vobj ty tx a4 content =>
    if ty = some "heading".toList then
      .ok (extractNodeV (.vobj ty tx a4 content), acc.2)
    else if ty = some "bulletList".toList then
      match extractBulletListItemsV (.vobj ty tx a4 content) with
      | .ok items => .ok (acc.1, acc.2 ++ items)
      | .error e => .error e
    else .ok acc
  | _ => .ok acc

def panelChildrenV (acc : Str × List Str) : List ADV → Except JSErr (Str × List Str)
  | [] => .ok acc
  | pc :: pcs =>
    match panelChildStepV acc pc with
    | .error e => .error e
    | .ok acc2 => panelChildrenV acc2 pcs

/-- The source's `for..of` over a panel's (truthy) `content`: arrays
iterate their elements; strings iterate their characters, each a
one-character string primitive that every branch skips; any other
truthy value is not iterable and the loop header throws. -/
def panelLoopV : ADV → Except JSErr (Str × List Str)
  | .varr cs => panelChildrenV ([], []) cs
  | .vstr s => panelChildrenV ([], []) (s.map (fun c => .vstr [c]))
  | _ => .error .typeError

/-- One top-level block of the wire parse loop: reading `.type` of a
`null` block throws; a panel with truthy content runs the panel loop
(which may throw) and then the shared section assignment; a paragraph
with truthy content runs the shared paragraph logic on its extracted
text; every other value is skipped. -/
def parseStepV (st : Option Sect × ProgressTemplate) (block : ADV) :
    Except JSErr (Option Sect × ProgressTemplate) :=
  match block with
  | .vnull => .error .typeError
  | .vobj ty tx a4 (some c) =>
    if ty = some "panel".toList ∧ vTruthy c = true then
      match panelLoopV c with
      | .ok hi => .ok (st.1, panelAssign st.2 hi.1 hi.2)
      | .error e => .error e
    else if ty = some "paragraph".toList ∧ vTruthy c = true then
      .ok (parseParagraphText st (extractNodeV (.vobj ty tx a4 (some c))))
    else .ok st
  | _ => .ok st

def parseBlocksV (st : Option Sect × ProgressTemplate) :
    List ADV → Except JSErr (Option Sect × ProgressTemplate)
  | [] => .ok st
  | b :: bs =>
    match parseStepV st b with
    | .error e => .error e
    | .ok st2 => parseBlocksV st2 bs

/-- `parseProgressUpdateADF` over wire values: defaults for `null`,
primitives, arrays and objects whose `content` is absent or not an
array; otherwise the block loop, which can throw. -/
def parseProgressUpdateADFV : ADV → Except JSErr ProgressTemplate
  | .vobj _ _ _ (some (.varr blocks)) =>
    match parseBlocksV (none, defaultTemplate) blocks with
    | .ok st => .ok st.2
    | .error e => .error e
  | _ => .ok defaultTemplate

mutual

/-- The inner `extractText` of `extractTextFromADF` over wire values:
reading `.type` of a `null` element throws, and a truthy non-array
`content` is passed to the recursive call whose `.map` throws — this
recursion has no `Array.isArray` guard. -/
def extractInnerV : ADV → Except JSErr Str
  | .vnull => .error .typeError
  | .vobj ty tx _ content =>
    if ty = some "text".toList ∧ txTruthy tx then .ok (tx.getD [])
    else match content with
      | some (.varr l) => joinSpInnerV l
      | some c => if vTruthy c then .error .typeError else .ok []
      | none => .ok []
  | _ => .ok []

def joinSpInnerV : List ADV → Except JSErr Str
  | [] => .ok []
  | [n] => extractInnerV n
  | n :: ns =>
    match extractInnerV n with
    | .error e => .error e
    | .ok s =>
      match joinSpInnerV ns with
      | .error e => .error e
      | .ok t => .ok (s ++ ' ' :: t)

end

/-- `extractTextFromADF` over wire values: `null`, primitives, arrays
and objects with falsy or absent `content` extract as the empty string;
an array-shaped `content` is extracted and trimmed; a truthy non-array
`content` reaches the inner `.map` and throws. -/
def extractTextFromADFV : ADV → Except JSErr Str
  | .vobj _ _ _ (some (.varr l)) =>
    match joinSpInnerV l with
    | .ok s => .ok (trim s)
    | .error e => .error e
  | .vobj _ _ _ (some c) => if vTruthy c then .error .typeError else .ok []
  | _ => .ok []

mutual

/-- Embedding of the array-shaped `ADF` fragment into wire values
(`scalar` becomes a truthy primitive, which every consumer skips; the
`strong` mark is not read by the parser and is dropped). -/
def embedADF : ADF → ADV
  | .scalar => .vnum 1
  | .node ty tx _ a4 content =>
    .vobj ty tx a4 (match content with
      | some l => some (.varr (embedADFList l))
      | none => none)

def embedADFList : List ADF → List ADV
  | [] => []
  | x :: xs => embedADF x :: embedADFList xs

end

/-! ## Lemmas about the string primitives -/

theorem trimLeft_nil : trimLeft [] = [] := rfl

theorem trimRight_nil : trimRight [] = [] := rfl

theorem trim_nil : trim [] = [] := rfl

theorem trimLeft_cons_ws {a : Char} (h : isWS a = true) (x : Str) :
    trimLeft (a :: x) = trimLeft x := by
  simp [trimLeft, List.dropWhile_cons, h]

theorem trimLeft_cons_not_ws {a : Char} (h : isWS a = false) (x : Str) :
    trimLeft (a :: x) = a :: x := by
  simp [trimLeft, List.dropWhile_cons, h]

theorem trim_cons_ws {a : Char} (h : isWS a = true) (x : Str) :
    trim (a :: x) = trim x := by
  simp [trim, trimLeft_cons_ws h]

theorem trimRight_concat_not_ws {b : Char} (h : isWS b = false) (x : Str) :
    trimRight (x ++ [b]) = x ++ [b] := by
  simp [trimRight, List.dropWhile_cons, h]

theorem trimRight_append (x y : Str) :
    trimRight (x ++ y) = if trimRight y = [] then trimRight x else x ++ trimRight y := by
  unfold trimRight
  rw [List.reverse_append, List.dropWhile_append]
  by_cases h : (y.reverse.dropWhile isWS).isEmpty = true
  · simp only [h, if_true]
    rw [List.isEmpty_iff] at h
    simp [h]
  · simp only [h, if_false]
    rw [List.isEmpty_iff] at h
    have : (y.reverse.dropWhile isWS).reverse ≠ [] := by
      simpa using h
    simp [this, List.reverse_append]

theorem trimRight_idem (x : Str) : trimRight (trimRight x) = trimRight x := by
  simp [trimRight, List.dropWhile_idempotent]

theorem trimLeft_idem (x : Str) : trimLeft (trimLeft x) = trimLeft x := by
  simp [trimLeft, List.dropWhile_idempotent]

theorem trimRight_prefix (x : Str) : ∃ w, x = trimRight x ++ w ∧ w.all isWS = true := by
  refine ⟨(x.reverse.takeWhile isWS).reverse, ?_, ?_⟩
  · have h : x.reverse = x.reverse.takeWhile isWS ++ x.reverse.dropWhile isWS :=
      (List.takeWhile_append_dropWhile isWS x.reverse).symm
    calc x = x.reverse.reverse := (List.reverse_reverse x).symm
    _ = (x.reverse.takeWhile isWS ++ x.reverse.dropWhile isWS).reverse := by rw [← h]
    _ = (x.reverse.dropWhile isWS).reverse ++ (x.reverse.takeWhile isWS).reverse := by
        rw [List.reverse_append]
    _ = trimRight x ++ (x.reverse.takeWhile isWS).reverse := rfl
  · rw [List.all_eq_true]
    intro c hc
    rw [List.mem_reverse] at hc
    exact List.mem_takeWhile_imp hc

theorem head_not_ws_of_trimLeft_fix {x : Str} {c : Char} {t : Str}
    (hfix : trimLeft x = x) (hx : x = c :: t) : isWS c = false := by
  by_contra h
  rw [Bool.not_eq_false] at h
  rw [hx, trimLeft_cons_ws h] at hfix
  have hsuf : trimLeft t <:+ t := List.dropWhile_suffix isWS
  have hlen : (trimLeft t).length ≤ t.length := hsuf.length_le
  rw [hfix] at hlen
  simp at hlen

theorem trimLeft_trimRight_fix {x : Str} (hfix : trimLeft x = x) :
    trimLeft (trimRight x) = trimRight x := by
  obtain ⟨w, hw, -⟩ := trimRight_prefix x
  cases htr : trimRight x with
  | nil => rfl
  | cons c z =>
    rw [htr] at hw
    have hc : isWS c = false := head_not_ws_of_trimLeft_fix hfix (by rw [hw]; rfl)
    exact trimLeft_cons_not_ws hc z

theorem trimLeft_of_trim_fix {x : Str} (hfix : trim x = x) : trimLeft x = x := by
  have h : trimLeft (trim x) = trim x := trimLeft_trimRight_fix (trimLeft_idem x)
  rwa [hfix] at h

theorem trimRight_of_trim_fix {x : Str} (hfix : trim x = x) : trimRight x = x := by
  have h : trimRight (trim x) = trim x := trimRight_idem (trimLeft x)
  rwa [hfix] at h

theorem trim_trim (s : Str) : trim (trim s) = trim s := by
  have h1 : trimLeft (trim s) = trim s := trimLeft_trimRight_fix (trimLeft_idem s)
  show trimRight (trimLeft (trim s)) = trim s
  rw [h1]
  exact trimRight_idem (trimLeft s)

theorem trim_eq_self {a b : Char} (ha : isWS a = false) (hb : isWS b = false) (m : Str) :
    trim (a :: (m ++ [b])) = a :: (m ++ [b]) := by
  show trimRight (trimLeft (a :: (m ++ [b]))) = _
  rw [trimLeft_cons_not_ws ha,
    show a :: (m ++ [b]) = (a :: m) ++ [b] from rfl, trimRight_concat_not_ws hb]

theorem trim_isInfix_self (s : Str) : trim s <:+: s := by
  have h1 : trimLeft s <:+ s := List.dropWhile_suffix isWS
  have h2 : trimRight (trimLeft s) <+: trimLeft s := by
    obtain ⟨w, hw, -⟩ := trimRight_prefix (trimLeft s)
    exact ⟨w, hw.symm⟩
  exact (h2.isInfix).trans h1.isInfix

theorem takeWhile_all {p : Char → Bool} {l : Str} (h : ∀ c ∈ l, p c = true) :
    l.takeWhile p = l := by
  induction l with
  | nil => rfl
  | cons c cs ih =>
    rw [List.takeWhile_cons, h c (by simp), ih (fun x hx => h x (by simp [hx]))]
    simp

theorem takeWhile_append_stop {p : Char → Bool} {A : Str} {c : Char}
    (hA : ∀ x ∈ A, p x = true) (hc : p c = false) (Z : Str) :
    (A ++ c :: Z).takeWhile p = A := by
  induction A with
  | nil => simp [List.takeWhile_cons, hc]
  | cons a as ih =>
    rw [List.cons_append, List.takeWhile_cons, hA a (by simp)]
    simp only [if_true]
    rw [ih (fun x hx => hA x (by simp [hx]))]

theorem isPrefixOf_append_self (l r : Str) : l.isPrefixOf (l ++ r) = true := by
  rw [ List.isPrefixOf_iff_prefix]
  exact List.prefix_append l r

/-! ## Lemmas about `containsSub` and infix occurrence -/

theorem containsSub_iff_infix {p s : Str} : containsSub p s = true ↔ p <:+: s := by
  induction s with
  | nil =>
    simp only [containsSub]
    rw [ List.isPrefixOf_iff_prefix]
    constructor
    · exact fun h => h.isInfix
    · intro h
      rw [List.infix_nil] at h
      simp [h]
  | cons c cs ih =>
    simp only [containsSub, Bool.or_eq_true, ih]
    rw [ List.isPrefixOf_iff_prefix, List.infix_cons_iff]

theorem not_infix_of_containsSub_false {p s : Str} (h : containsSub p s = false) :
    ¬ p <:+: s := by
  rw [← containsSub_iff_infix]
  simp [h]

theorem infix_append_cases {a : Char} {pr X Y : Str}
    (hinf : (a :: pr) <:+: X ++ Y) : a ∈ X ∨ (a :: pr) <:+: Y := by
  obtain ⟨s, t, hst⟩ := hinf
  rw [List.append_assoc] at hst
  by_cases hlen : s.length < X.length
  · left
    have htake : (s ++ (a :: pr ++ t)).take (s.length + 1) = s ++ [a] := by
      rw [List.take_append_eq_append_take]
      have h1 : s.take (s.length + 1) = s := List.take_of_length_le (by omega)
      have h2 : s.length + 1 - s.length = 1 := by omega
      rw [h1, h2]
      rfl
    have htake2 : (X ++ Y).take (s.length + 1) = X.take (s.length + 1) :=
      List.take_append_of_le_length (by omega)
    have hX : s ++ [a] = X.take (s.length + 1) := by
      rw [← htake, ← htake2, hst]
    have hmem : a ∈ X.take (s.length + 1) := by
      rw [← hX]
      simp
    exact List.mem_of_mem_take hmem
  · right
    push_neg at hlen
    have hXs : s.take X.length = X := by
      have h := congrArg (List.take X.length) hst
      rw [List.take_append_of_le_length hlen, List.take_left] at h
      exact h
    have hs : s = X ++ s.drop X.length := by
      conv_lhs => rw [← List.take_append_drop X.length s]
      rw [hXs]
    rw [hs, List.append_assoc] at hst
    have hY := List.append_cancel_left hst
    exact ⟨s.drop X.length, t, by rw [List.append_assoc, hY]⟩

/-! ## Lemmas about the regex matchers -/

theorem litWeek_eq : litWeek = 'U' :: "pdate for week of ".toList := rfl

theorem dLitB_eq : dLitB = 'v' :: "e delivered so far:".toList := rfl

theorem weeklyTry_none {s : Str} (h : ¬ litWeek <+: s) : weeklyTry s = none := by
  unfold weeklyTry
  rw [if_neg (fun hb => h (( List.isPrefixOf_iff_prefix).mp hb))]

theorem weeklyMatch_eq_none {s : Str} (h : ¬ litWeek <:+: s) : weeklyMatch s = none := by
  induction s with
  | nil => rfl
  | cons c cs ih =>
    have h1 : ¬ litWeek <+: (c :: cs) := fun hp => h hp.isInfix
    have h2 : ¬ litWeek <:+: cs := fun hi => h (hi.trans (List.suffix_cons c cs).isInfix)
    simp only [weeklyMatch, weeklyTry_none h1]
    exact ih h2

theorem deliveredTry_none {s : Str} (h : ¬ dLitB <:+: s) : deliveredTry s = none := by
  unfold deliveredTry
  by_cases hpre : dLitA.isPrefixOf s = true
  · rw [if_pos hpre]
    obtain ⟨t, ht⟩ := ( List.isPrefixOf_iff_prefix).mp hpre
    subst ht
    rw [List.drop_left]
    unfold deliveredTail
    rw [if_neg]
    rintro ⟨-, hb⟩
    obtain ⟨t2, ht2⟩ := ( List.isPrefixOf_iff_prefix).mp hb
    refine h ⟨dLitA ++ t.take 1, t2, ?_⟩
    simp only [List.append_assoc]
    rw [ht2, List.take_append_drop]
  · rw [if_neg hpre]

theorem deliveredMatch_eq_none {s : Str} (h : ¬ dLitB <:+: s) : deliveredMatch s = none := by
  induction s with
  | nil => rfl
  | cons c cs ih =>
    have h1 : ¬ dLitB <:+: (c :: cs) := h
    have h2 : ¬ dLitB <:+: cs := fun hi => h (hi.trans (List.suffix_cons c cs).isInfix)
    simp only [deliveredMatch, deliveredTry_none h1]
    exact ih h2

theorem weeklyTry_pos0 {W : Str} (R : Str) (hne : W ≠ []) (hc : ':' ∉ W) :
    weeklyTry (litWeek ++ (W ++ ':' :: R)) = some (W, R.takeWhile notLT) := by
  unfold weeklyTry
  rw [if_pos (isPrefixOf_append_self _ _), List.drop_left]
  unfold weeklyTail
  have htw : (W ++ ':' :: R).takeWhile (fun x => decide (x ≠ ':')) = W := by
    refine takeWhile_append_stop (fun x hx => ?_) (by simp) R
    simp only [decide_eq_true_eq]
    exact fun hcol => hc (hcol ▸ hx)
  rw [htw, List.drop_left]
  rw [if_pos ⟨hne, rfl⟩]
  rw [show (':' :: R).drop 1 = R from rfl]

theorem weeklyMatch_pos0 {W : Str} (R : Str) (hne : W ≠ []) (hc : ':' ∉ W) :
    weeklyMatch (litWeek ++ (W ++ ':' :: R)) = some (W, R.takeWhile notLT) := by
  have h := weeklyTry_pos0 R hne hc
  rw [litWeek_eq] at h ⊢
  rw [List.cons_append] at h ⊢
  simp only [weeklyMatch, h]

theorem deliveredTry_pos0 (R : Str) :
    deliveredTry (deliveredHeader ++ R) = some (R.takeWhile notLT) := by
  unfold deliveredTry
  have harr : deliveredHeader ++ R = dLitA ++ (aposC :: (dLitB ++ R)) := by
    simp [deliveredHeader]
  rw [harr, if_pos (isPrefixOf_append_self _ _), List.drop_left]
  unfold deliveredTail
  rw [if_pos ⟨Or.inl rfl, isPrefixOf_append_self dLitB R⟩]
  rw [show ((aposC :: (dLitB ++ R)).drop 1) = dLitB ++ R from rfl, List.drop_left]

theorem deliveredMatch_pos0 (R : Str) :
    deliveredMatch (deliveredHeader ++ R) = some (R.takeWhile notLT) := by
  have h := deliveredTry_pos0 R
  have hW : deliveredHeader ++ R = 'W' :: ("hat we".toList ++ aposC :: dLitB ++ R) := by
    simp [deliveredHeader, dLitA]
  rw [hW] at h ⊢
  simp only [deliveredMatch, h]

theorem whatsNextTry_pos0 (R : Str) :
    whatsNextTry (whatsNextHeader ++ R) = some (R.takeWhile notLT) := by
  unfold whatsNextTry
  have harr : whatsNextHeader ++ R = wLitA ++ (aposC :: (wLitB ++ R)) := by
    simp [whatsNextHeader]
  rw [harr, if_pos (isPrefixOf_append_self _ _), List.drop_left]
  unfold whatsNextTail
  rw [if_pos ⟨Or.inl rfl, isPrefixOf_append_self wLitB R⟩]
  rw [show ((aposC :: (wLitB ++ R)).drop 1) = wLitB ++ R from rfl, List.drop_left]

theorem whatsNextMatch_pos0 (R : Str) :
    whatsNextMatch (whatsNextHeader ++ R) = some (R.takeWhile notLT) := by
  have h := whatsNextTry_pos0 R
  have hW : whatsNextHeader ++ R = 'W' :: ("hat".toList ++ aposC :: wLitB ++ R) := by
    simp [whatsNextHeader, wLitA]
  rw [hW] at h ⊢
  simp only [whatsNextMatch, h]

/-! ## Extraction of generated paragraphs -/

theorem extract_textNode (t : Str) (st : Bool) (ht : t ≠ []) :
    extractTextFromADFNode (ADF.node (some "text".toList) (some t) st none none) = t := by
  cases t with
  | nil => exact absurd rfl ht
  | cons c cs =>
    unfold extractTextFromADFNode
    rw [if_pos ⟨rfl, rfl⟩]
    rfl

theorem extract_emojiNode (st : Bool) (e : Option EmojiAttrs) :
    extractTextFromADFNode (ADF.node (some "emoji".toList) none st e none) = [] := by
  unfold extractTextFromADFNode
  rw [if_neg (by rintro ⟨-, h⟩; exact absurd h (by simp [txTruthy]))]

theorem extract_createADFParagraph (t : Str) (e : EmojiAttrs) :
    extractTextFromADFNode (createADFParagraph t (some e)) = trim t := by
  show extractTextFromADFNode (ADF.node (some "paragraph".toList) none false none
    (some [ADF.node (some "emoji".toList) none false (some e) none,
           ADF.node (some "text".toList) (some (' ' :: t)) (endsWithColon t) none none])) = _
  unfold extractTextFromADFNode
  rw [if_neg (by rintro ⟨h, -⟩; exact absurd (Option.some.inj h) (by decide))]
  show trim (joinSp (extractList _)) = _
  unfold extractList extractList extractList
  rw [extract_emojiNode, extract_textNode _ _ (by simp)]
  show trim ([] ++ ' ' :: joinSp [' ' :: t]) = _
  show trim (' ' :: ' ' :: t) = _
  rw [trim_cons_ws (by decide), trim_cons_ws (by decide)]

/-! ## Parsing the generated paragraphs -/

theorem trim_header_any {H : Str} {h0 : Char} {Ht : Str} (hH : H = h0 :: Ht)
    (hws : isWS h0 = false) (hHr : trimRight H = H) (d : Str) :
    trim (H ++ ' ' :: d) =
      if trimRight (' ' :: d) = [] then H else H ++ trimRight (' ' :: d) := by
  have h1 : trimLeft (H ++ ' ' :: d) = H ++ ' ' :: d := by
    rw [hH, List.cons_append]
    exact trimLeft_cons_not_ws hws _
  show trimRight (trimLeft (H ++ ' ' :: d)) = _
  rw [h1, trimRight_append, hHr]

theorem trim_header_content {H : Str} {h0 : Char} {Ht : Str} (hH : H = h0 :: Ht)
    (hws : isWS h0 = false) (hHr : trimRight H = H) {d : Str}
    (htr : trim d = d) (hne : d ≠ []) :
    trim (H ++ ' ' :: d) = H ++ ' ' :: d := by
  rw [trim_header_any hH hws hHr d]
  have hd : trimRight (' ' :: d) = ' ' :: d := by
    have h1 : (' ' :: d) = [' '] ++ d := rfl
    rw [h1, trimRight_append, trimRight_of_trim_fix htr, if_neg hne]
  rw [hd, if_neg (by simp)]

theorem not_litWeek_infix_header {H : Str} (hU : 'U' ∉ H ++ [' ']) {d : Str}
    (hd : containsSub litWeek d = false) : ¬ litWeek <:+: (H ++ ' ' :: d) := by
  intro hinf
  rw [litWeek_eq] at hinf
  have harr : H ++ ' ' :: d = (H ++ [' ']) ++ d := by simp
  rw [harr] at hinf
  rcases infix_append_cases hinf with h | h
  · exact hU h
  · exact not_infix_of_containsSub_false hd (litWeek_eq ▸ h)

theorem not_dLitB_infix_header {H : Str} (hV : 'v' ∉ H ++ [' ']) {d : Str}
    (hd : containsSub dLitB d = false) : ¬ dLitB <:+: (H ++ ' ' :: d) := by
  intro hinf
  rw [dLitB_eq] at hinf
  have harr : H ++ ' ' :: d = (H ++ [' ']) ++ d := by simp
  rw [harr] at hinf
  rcases infix_append_cases hinf with h | h
  · exact hV h
  · exact not_infix_of_containsSub_false hd (dLitB_eq ▸ h)

theorem parseParagraph_genP1 (st : Option Sect × ProgressTemplate) {w : Str}
    (hne : w ≠ []) (hc : ':' ∉ w) (htr : trim w = w) :
    parseParagraph st (createADFParagraph (litWeek ++ w ++ [':']) (some infoEmoji))
      = (some .weekly, { st.2 with weeklyUpdate := w }) := by
  have hx : extractTextFromADFNode (createADFParagraph (litWeek ++ w ++ [':']) (some infoEmoji))
      = litWeek ++ (w ++ ':' :: ([] : Str)) := by
    rw [extract_createADFParagraph]
    have harr : litWeek ++ w ++ [':'] = 'U' :: (("pdate for week of ".toList ++ w) ++ [':']) := by
      rw [litWeek_eq]
      simp
    rw [harr, trim_eq_self (by decide) (by decide)]
    rw [litWeek_eq]
    simp
  simp only [parseParagraph, parseParagraphText, hx]
  rw [weeklyMatch_pos0 ([] : Str) hne hc]
  simp only [List.takeWhile_nil, trim_nil, ne_eq, not_true_eq_false, if_false, htr]

theorem parseParagraph_genP2 (st : Option Sect × ProgressTemplate) {d : Str}
    (hweek : containsSub litWeek d = false) (hnl : ∀ c ∈ d, isLineTerm c = false)
    (htr : trim d = d) :
    parseParagraph st (createADFParagraph (deliveredHeader ++ ' ' :: d) (some checkEmoji))
      = (some .delivered, { st.2 with delivered := d }) := by
  rcases eq_or_ne d [] with hd | hd
  · subst hd
    have hx : extractTextFromADFNode
        (createADFParagraph (deliveredHeader ++ ' ' :: ([] : Str)) (some checkEmoji))
        = deliveredHeader := by
      rw [extract_createADFParagraph]
      decide
    simp only [parseParagraph, parseParagraphText, hx]
    rw [weeklyMatch_eq_none (by decide), show deliveredMatch deliveredHeader = some [] by decide]
    simp [trim_nil]
  · have hx : extractTextFromADFNode
        (createADFParagraph (deliveredHeader ++ ' ' :: d) (some checkEmoji))
        = deliveredHeader ++ ' ' :: d := by
      rw [extract_createADFParagraph]
      exact trim_header_content rfl (by decide) (by decide) htr hd
    simp only [parseParagraph, parseParagraphText, hx]
    rw [weeklyMatch_eq_none (not_litWeek_infix_header (by decide) hweek)]
    have hdm : deliveredMatch (deliveredHeader ++ ' ' :: d)
        = some (' ' :: d) := by
      rw [deliveredMatch_pos0 (' ' :: d)]
      congr 1
      refine takeWhile_all (fun c hcm => ?_)
      rcases List.mem_cons.mp hcm with h | h
      · subst h
        decide
      · simp [notLT, hnl c h]
    rw [hdm]
    simp only [trim_cons_ws (show isWS ' ' = true by decide), htr]

theorem parseParagraph_genP3 (st : Option Sect × ProgressTemplate) {n : Str}
    (hweek : containsSub litWeek n = false) (hdel : containsSub dLitB n = false)
    (hnl : ∀ c ∈ n, isLineTerm c = false) (htr : trim n = n) :
    parseParagraph st (createADFParagraph (whatsNextHeader ++ ' ' :: n) (some questionEmoji))
      = (some .whatsNext, { st.2 with whatsNext := n }) := by
  rcases eq_or_ne n [] with hn | hn
  · subst hn
    have hx : extractTextFromADFNode
        (createADFParagraph (whatsNextHeader ++ ' ' :: ([] : Str)) (some questionEmoji))
        = whatsNextHeader := by
      rw [extract_createADFParagraph]
      decide
    simp only [parseParagraph, parseParagraphText, hx]
    rw [weeklyMatch_eq_none (by decide), deliveredMatch_eq_none (by decide),
      show whatsNextMatch whatsNextHeader = some [] by decide]
    simp [trim_nil]
  · have hx : extractTextFromADFNode
        (createADFParagraph (whatsNextHeader ++ ' ' :: n) (some questionEmoji))
        = whatsNextHeader ++ ' ' :: n := by
      rw [extract_createADFParagraph]
      exact trim_header_content rfl (by decide) (by decide) htr hn
    simp only [parseParagraph, parseParagraphText, hx]
    rw [weeklyMatch_eq_none (not_litWeek_infix_header (by decide) hweek),
      deliveredMatch_eq_none (not_dLitB_infix_header (by decide) hdel)]
    have hwm : whatsNextMatch (whatsNextHeader ++ ' ' :: n) = some (' ' :: n) := by
      rw [whatsNextMatch_pos0 (' ' :: n)]
      congr 1
      refine takeWhile_all (fun c hcm => ?_)
      rcases List.mem_cons.mp hcm with h | h
      · subst h
        decide
      · simp [notLT, hnl c h]
    rw [hwm]
    simp only [trim_cons_ws (show isWS ' ' = true by decide), htr]

theorem parseStep_genParagraph (st : Option Sect × ProgressTemplate) (t : Str)
    (e : EmojiAttrs) :
    parseStep st (createADFParagraph t (some e))
      = parseParagraph st (createADFParagraph t (some e)) := by
  show parseStep st (ADF.node (some "paragraph".toList) none false none _) = _
  simp only [parseStep, adfType, adfContent]
  rw [if_neg (by decide), if_pos trivial]
  rfl

/-! ## Skipped blocks and parser defaults -/

theorem parseStep_skipped {st : Option Sect × ProgressTemplate} {b : ADF}
    (h : skippedBlock b = true) : parseStep st b = st := by
  unfold parseStep
  unfold skippedBlock at h
  cases hty : adfType b with
  | none =>
    cases hco : adfContent b <;> rfl
  | some ty =>
    cases hco : adfContent b with
    | none => rfl
    | some ch =>
      rw [hty, hco] at h
      replace h : (!decide (ty = "panel".toList) && !decide (ty = "paragraph".toList)) = true := h
      simp only [Bool.and_eq_true, Bool.not_eq_true', decide_eq_false_iff_not] at h
      show (if ty = "panel".toList then parsePanel st ch
        else if ty = "paragraph".toList then parseParagraph st b else st) = st
      rw [if_neg h.1, if_neg h.2]

theorem foldl_parseStep_skipped {blocks : List ADF}
    (h : ∀ b ∈ blocks, skippedBlock b = true) (init : Option Sect × ProgressTemplate) :
    List.foldl parseStep init blocks = init := by
  induction blocks generalizing init with
  | nil => rfl
  | cons b bs ih =>
    rw [List.foldl_cons, parseStep_skipped (h b (by simp))]
    exact ih (fun x hx => h x (by simp [hx])) init

/-! ## Refinement: the wire-value layer on embedded documents -/

mutual

theorem embed_extractNode (d : ADF) :
    extractNodeV (embedADF d) = extractTextFromADFNode d := by
  cases d with
  | scalar => rfl
  | node ty tx st a4 content =>
    cases content with
    | none => rfl
    | some l =>
      show (if ty = some "text".toList ∧ txTruthy tx then tx.getD []
          else trim (joinSp (extractNodeListV (embedADFList l))))
        = (if ty = some "text".toList ∧ txTruthy tx then tx.getD []
          else trim (joinSp (extractList l)))
      rw [embed_extractNodeList l]

theorem embed_extractNodeList (l : List ADF) :
    extractNodeListV (embedADFList l) = extractList l := by
  cases l with
  | nil => rfl
  | cons x xs =>
    show extractNodeV (embedADF x) :: extractNodeListV (embedADFList xs)
      = extractTextFromADFNode x :: extractList xs
    rw [embed_extractNode x, embed_extractNodeList xs]

end

theorem embed_map_extract (l : List ADF) :
    (embedADFList l).map extractNodeV = l.map extractTextFromADFNode := by
  induction l with
  | nil => rfl
  | cons x xs ih =>
    show extractNodeV (embedADF x) :: (embedADFList xs).map extractNodeV
      = extractTextFromADFNode x :: xs.map extractTextFromADFNode
    rw [embed_extractNode x, ih]

theorem embed_bulletItem (d : ADF) : bulletItemV (embedADF d) = .ok (bulletItem d) := by
  cases d with
  | scalar => rfl
  | node ty tx st a4 content =>
    cases content with
    | none => rfl
    | some ic =>
      show Except.ok (trim (joinSp ((embedADFList ic).map extractNodeV)))
        = Except.ok (bulletItem (ADF.node ty tx st a4 (some ic)))
      rw [embed_map_extract ic]
      rfl

theorem embed_bulletItems (l : List ADF) :
    bulletItemsV (embedADFList l) = .ok (l.map bulletItem) := by
  induction l with
  | nil => rfl
  | cons x xs ih =>
    show (match bulletItemV (embedADF x) with
      | .error e => .error e
      | .ok t =>
        match bulletItemsV (embedADFList xs) with
        | .error e => .error e
        | .ok ts => Except.ok (t :: ts)) = Except.ok ((x :: xs).map bulletItem)
    rw [embed_bulletItem x, ih]
    rfl

theorem embed_extractBulletList (d : ADF) :
    extractBulletListItemsV (embedADF d) = .ok (extractBulletListItems d) := by
  cases d with
  | scalar => rfl
  | node ty tx st a4 content =>
    cases content with
    | none =>
      show Except.ok [] = Except.ok (extractBulletListItems (ADF.node ty tx st a4 none))
      simp only [extractBulletListItems]
      by_cases hty : ty = some "bulletList".toList
      · rw [if_pos hty]
      · rw [if_neg hty]
    | some l =>
      show (if ty = some "bulletList".toList then
          match bulletItemsV (embedADFList l) with
          | .ok ts => Except.ok (ts.filter (fun t => t ≠ []))
          | .error e => .error e
        else .ok [])
        = Except.ok (extractBulletListItems (ADF.node ty tx st a4 (some l)))
      rw [embed_bulletItems l]
      simp only [extractBulletListItems]
      by_cases hty : ty = some "bulletList".toList
      · rw [if_pos hty, if_pos hty]
      · rw [if_neg hty, if_neg hty]

theorem embed_panelChildStep (acc : Str × List Str) (pc : ADF) :
    panelChildStepV acc (embedADF pc) = .ok (panelChildStep acc pc) := by
  cases pc with
  | scalar => rfl
  | node ty tx st a4 content =>
    show (if ty = some "heading".toList then
        Except.ok (extractNodeV (embedADF (ADF.node ty tx st a4 content)), acc.2)
      else if ty = some "bulletList".toList then
        match extractBulletListItemsV (embedADF (ADF.node ty tx st a4 content)) with
        | .ok items => .ok (acc.1, acc.2 ++ items)
        | .error e => .error e
      else .ok acc)
      = Except.ok (panelChildStep acc (ADF.node ty tx st a4 content))
    simp only [panelChildStep, adfType]
    by_cases hH : ty = some "heading".toList
    · rw [if_pos hH, if_pos hH,
        if_neg (show ¬ty = some "bulletList".toList by rw [hH]; decide),
        embed_extractNode]
    · by_cases hB : ty = some "bulletList".toList
      · rw [if_neg hH, if_neg hH, if_pos hB, if_pos hB, embed_extractBulletList]
      · rw [if_neg hH, if_neg hH, if_neg hB, if_neg hB]

theorem embed_panelChildren (l : List ADF) (acc : Str × List Str) :
    panelChildrenV acc (embedADFList l) = .ok (l.foldl panelChildStep acc) := by
  induction l generalizing acc with
  | nil => rfl
  | cons x xs ih =>
    show (match panelChildStepV acc (embedADF x) with
      | .error e => .error e
      | .ok acc2 => panelChildrenV acc2 (embedADFList xs))
      = Except.ok ((x :: xs).foldl panelChildStep acc)
    rw [embed_panelChildStep acc x]
    show panelChildrenV (panelChildStep acc x) (embedADFList xs)
      = Except.ok ((x :: xs).foldl panelChildStep acc)
    rw [ih (panelChildStep acc x)]
    rfl

theorem embed_parseStep (st : Option Sect × ProgressTemplate) (b : ADF) :
    parseStepV st (embedADF b) = .ok (parseStep st b) := by
  cases b with
  | scalar => rfl
  | node ty tx strb a4 content =>
    cases content with
    | none => cases ty <;> rfl
    | some l =>
      show parseStepV st (.vobj ty tx a4 (some (.varr (embedADFList l))))
        = Except.ok (parseStep st (ADF.node ty tx strb a4 (some l)))
      cases ty with
      | none => rfl
      | some tys =>
        unfold parseStepV
        unfold parseStep
        simp only [adfType, adfContent]
        by_cases hP : tys = "panel".toList
        · subst hP
          rw [if_pos ⟨rfl, rfl⟩, if_pos rfl]
          show (match panelChildrenV ([], []) (embedADFList l) with
            | .ok hi => Except.ok (st.1, panelAssign st.2 hi.1 hi.2)
            | .error e => .error e)
            = Except.ok (parsePanel st l)
          rw [embed_panelChildren l ([], [])]
          rfl
        · by_cases hQ : tys = "paragraph".toList
          · subst hQ
            rw [if_neg (fun h => absurd h.1 (by decide)), if_pos ⟨rfl, rfl⟩,
              if_neg (by decide), if_pos rfl]
            show Except.ok (parseParagraphText st (extractNodeV
                (embedADF (ADF.node (some "paragraph".toList) tx strb a4 (some l)))))
              = Except.ok (parseParagraph st
                (ADF.node (some "paragraph".toList) tx strb a4 (some l)))
            rw [embed_extractNode]
            rfl
          · rw [if_neg (fun h => hP (Option.some.inj h.1)),
              if_neg (fun h => hQ (Option.some.inj h.1)), if_neg hP, if_neg hQ]

theorem embed_parseBlocks (blocks : List ADF) (st : Option Sect × ProgressTemplate) :
    parseBlocksV st (embedADFList blocks) = .ok (blocks.foldl parseStep st) := by
  induction blocks generalizing st with
  | nil => rfl
  | cons b bs ih =>
    show (match parseStepV st (embedADF b) with
      | .error e => .error e
      | .ok st2 => parseBlocksV st2 (embedADFList bs))
      = Except.ok ((b :: bs).foldl parseStep st)
    rw [embed_parseStep st b]
    show parseBlocksV (parseStep st b) (embedADFList bs)
      = Except.ok ((b :: bs).foldl parseStep st)
    rw [ih (parseStep st b)]
    rfl

theorem embed_parse (d : ADF) :
    parseProgressUpdateADFV (embedADF d) = .ok (parseProgressUpdateADF d) := by
  cases d with
  | scalar => rfl
  | node ty tx strb a4 content =>
    cases content with
    | none => rfl
    | some blocks =>
      show (match parseBlocksV (none, defaultTemplate) (embedADFList blocks) with
        | .ok st => Except.ok st.2
        | .error e => .error e)
        = Except.ok (parseProgressUpdateADF (ADF.node ty tx strb a4 (some blocks)))
      rw [embed_parseBlocks blocks (none, defaultTemplate)]
      rfl

mutual

theorem embed_extractInner (d : ADF) :
    extractInnerV (embedADF d) = .ok (extractInner d) := by
  cases d with
  | scalar => rfl
  | node ty tx st a4 content =>
    cases content with
    | none =>
      show (if ty = some "text".toList ∧ txTruthy tx then Except.ok (tx.getD [])
          else Except.ok [])
        = Except.ok (extractInner (ADF.node ty tx st a4 none))
      simp only [extractInner]
      by_cases hc : ty = some "text".toList ∧ txTruthy tx
      · rw [if_pos hc, if_pos hc]
      · rw [if_neg hc, if_neg hc]
    | some l =>
      show (if ty = some "text".toList ∧ txTruthy tx then Except.ok (tx.getD [])
          else joinSpInnerV (embedADFList l))
        = Except.ok (extractInner (ADF.node ty tx st a4 (some l)))
      simp only [extractInner]
      by_cases hc : ty = some "text".toList ∧ txTruthy tx
      · rw [if_pos hc, if_pos hc]
      · rw [if_neg hc, if_neg hc]
        rw [embed_joinSpInner l]

theorem embed_joinSpInner (l : List ADF) :
    joinSpInnerV (embedADFList l) = .ok (joinSpInner l) := by
  cases l with
  | nil => rfl
  | cons x xs =>
    cases xs with
    | nil =>
      show extractInnerV (embedADF x) = Except.ok (joinSpInner [x])
      rw [embed_extractInner x]
      rfl
    | cons y ys =>
      show (match extractInnerV (embedADF x) with
        | .error e => .error e
        | .ok s =>
          match joinSpInnerV (embedADFList (y :: ys)) with
          | .error e => .error e
          | .ok t => Except.ok (s ++ ' ' :: t))
        = Except.ok (joinSpInner (x :: y :: ys))
      rw [embed_extractInner x, embed_joinSpInner (y :: ys)]
      rfl

end

theorem embed_extractTextDoc (d : ADF) :
    extractTextFromADFV (embedADF d) = .ok (extractTextFromADF d) := by
  cases d with
  | scalar => rfl
  | node ty tx st a4 content =>
    cases content with
    | none => rfl
    | some l =>
      show (match joinSpInnerV (embedADFList l) with
        | .ok s => Except.ok (trim s)
        | .error e => .error e)
        = Except.ok (extractTextFromADF (ADF.node ty tx st a4 (some l)))
      rw [embed_joinSpInner l]
      rfl

/-! ## Claim theorems -/

/-- Claim C1 (counterexample): the claimed round trip
`parse(generate(weekOf, delivered, whatsNext)) = (weekOf, delivered, whatsNext)`
fails at the triple `("", "", "")`, whose `weekOf` contains no colon:
parsing the generated document yields the defaults
`("[date]", "", "")`, not `("", "", "")`. -/
theorem claim_C1_counterexample :
    parseProgressUpdateADF (createProgressUpdateADF [] [] []) ≠
      { weeklyUpdate := [], delivered := [], whatsNext := [] } ∧
    parseProgressUpdateADF (createProgressUpdateADF [] [] []) = defaultTemplate := by
  constructor
  · decide
  · decide

/-- Claim C1 (amended): the round trip `parse(generate(w, d, n)) = (w, d, n)`
holds whenever `w` is nonempty, colon-free and trim-fixed, and `d` and `n`
are free of line terminators (`\n`, `\r`, U+2028, U+2029 — the characters
a regex `.` does not cross), trim-fixed, and do not contain the week-of
header phrase (`n` additionally not containing the delivered-header
fragment `ve delivered so far:`). -/
theorem claim_C1_roundtrip {w d n : Str}
    (hw1 : w ≠ []) (hw2 : ':' ∉ w) (hw3 : trim w = w)
    (hd1 : containsSub litWeek d = false) (hd2 : ∀ c ∈ d, isLineTerm c = false)
    (hd3 : trim d = d)
    (hn1 : containsSub litWeek n = false) (hn2 : containsSub dLitB n = false)
    (hn3 : ∀ c ∈ n, isLineTerm c = false) (hn4 : trim n = n) :
    parseProgressUpdateADF (createProgressUpdateADF w d n) =
      { weeklyUpdate := w, delivered := d, whatsNext := n } := by
  show (List.foldl parseStep (none, defaultTemplate)
    [createADFParagraph (litWeek ++ w ++ [':']) (some infoEmoji),
     createADFParagraph (deliveredHeader ++ ' ' :: d) (some checkEmoji),
     createADFParagraph (whatsNextHeader ++ ' ' :: n) (some questionEmoji)]).2 = _
  simp only [List.foldl_cons, List.foldl_nil]
  rw [parseStep_genParagraph, parseStep_genParagraph, parseStep_genParagraph]
  rw [parseParagraph_genP1 _ hw1 hw2 hw3]
  rw [parseParagraph_genP2 _ hd1 hd2 hd3]
  rw [parseParagraph_genP3 _ hn1 hn2 hn3 hn4]

/-- Claim C1 (witness): the amended round trip at the concrete triple
`("Nov 1, 2025", "A", "B")`. -/
theorem claim_C1_witness :
    parseProgressUpdateADF
        (createProgressUpdateADF "Nov 1, 2025".toList "A".toList "B".toList) =
      { weeklyUpdate := "Nov 1, 2025".toList, delivered := "A".toList,
        whatsNext := "B".toList } :=
  claim_C1_roundtrip (by decide) (by decide) (by decide) (by decide) (by decide)
    (by decide) (by decide) (by decide) (by decide) (by decide)

/-- Claim C2 (counterexample): the parser is not total — on the document
`{type: 'doc', content: [{type: 'panel', content: 42}]}` the source's
`for..of` loop iterates the truthy non-iterable `42` and raises a
`TypeError`. -/
theorem claim_C2_counterexample :
    parseProgressUpdateADFV (.vobj (some "doc".toList) none none
        (some (.varr [.vobj (some "panel".toList) none none (some (.vnum 42))])))
      = .error .typeError := rfl

/-- Claim C2 (amended): the parser returns the defaults
`weekOf = "[date]"`, `delivered = ""`, `whatsNext = ""` for `null`, for
every primitive, for arrays, for objects without a `content` field and
for objects whose `content` is not an array; on every array-shaped
(embedded `ADF`) document it never raises and agrees with the
`ADF`-fragment parser — in particular a document whose top-level blocks
are all skipped parses to the defaults, and `parse(null)` is exactly
the defaults. (It is not total on arbitrary wire values: a panel block
or bullet list whose `content` is a truthy non-array raises a
`TypeError`.) -/
theorem claim_C2_parse_total_defaults :
    parseProgressUpdateADFV .vnull = .ok defaultTemplate ∧
    (∀ b : Bool, parseProgressUpdateADFV (.vbool b) = .ok defaultTemplate) ∧
    (∀ q : ℚ, parseProgressUpdateADFV (.vnum q) = .ok defaultTemplate) ∧
    (∀ s : Str, parseProgressUpdateADFV (.vstr s) = .ok defaultTemplate) ∧
    (∀ xs : List ADV, parseProgressUpdateADFV (.varr xs) = .ok defaultTemplate) ∧
    (∀ ty tx a4, parseProgressUpdateADFV (.vobj ty tx a4 none) = .ok defaultTemplate) ∧
    (∀ ty tx a4 c, (∀ l, c ≠ ADV.varr l) →
      parseProgressUpdateADFV (.vobj ty tx a4 (some c)) = .ok defaultTemplate) ∧
    (∀ d : ADF, parseProgressUpdateADFV (embedADF d) = .ok (parseProgressUpdateADF d)) ∧
    (∀ (ty tx : Option Str) (st : Bool) (a4 : Option EmojiAttrs) (blocks : List ADF),
      (∀ b ∈ blocks, skippedBlock b = true) →
      parseProgressUpdateADF (ADF.node ty tx st a4 (some blocks)) = defaultTemplate) := by
  refine ⟨rfl, fun _ => rfl, fun _ => rfl, fun _ => rfl, fun _ => rfl, fun _ _ _ => rfl,
    fun ty tx a4 c hc => ?_, embed_parse, fun ty tx st a4 blocks h => ?_⟩
  · cases c with
    | vnull => rfl
    | vbool b => rfl
    | vnum q => rfl
    | vstr s => rfl
    | varr l => exact absurd rfl (hc l)
    | vobj t2 x2 a2 c2 => rfl
  · show (List.foldl parseStep (none, defaultTemplate) blocks).2 = defaultTemplate
    rw [foldl_parseStep_skipped h]

/-- Claim C2 (witness): the amended facts at concrete inputs — an
embedded one-paragraph document, and a document holding one `rule`
block (no content array), which parses to the defaults. -/
theorem claim_C2_witness :
    parseProgressUpdateADFV (embedADF (paraDoc "x".toList))
        = .ok (parseProgressUpdateADF (paraDoc "x".toList)) ∧
    parseProgressUpdateADF (ADF.node (some "doc".toList) none false none
      (some [ADF.node (some "rule".toList) none false none none])) = defaultTemplate :=
  ⟨claim_C2_parse_total_defaults.2.2.2.2.2.2.2.1 (paraDoc "x".toList),
   claim_C2_parse_total_defaults.2.2.2.2.2.2.2.2 _ _ _ _ _ (by decide)⟩

/-- Claim C3: merging with only `delivered` set updates exactly the
delivered section: `updatedSections = ["delivered"]`, `weekOf` and
`whatsNext` keep their parsed existing values, `delivered` becomes the
supplied value, and the persisted document is regenerated from that
state; at the spec's example (existing
`("Nov 1, 2025", "A", "B")`, new delivered `"C"`) the final state is
`("Nov 1, 2025", "C", "B")`. -/
theorem claim_C3_partial_update (adf : ADF) (v : Str) (today : Str) :
    (updateProgressField adf (deliveredOnly v) today).updatedSections
        = ["delivered".toList] ∧
    (updateProgressField adf (deliveredOnly v) today).weeklyUpdate
        = (parseProgressUpdateADF adf).weeklyUpdate ∧
    (updateProgressField adf (deliveredOnly v) today).delivered = v ∧
    (updateProgressField adf (deliveredOnly v) today).whatsNext
        = (parseProgressUpdateADF adf).whatsNext ∧
    (updateProgressField adf (deliveredOnly v) today).parsedExisting
        = parseProgressUpdateADF adf ∧
    (updateProgressField adf (deliveredOnly v) today).document
        = createProgressUpdateADF (parseProgressUpdateADF adf).weeklyUpdate v
            (parseProgressUpdateADF adf).whatsNext ∧
    (updateProgressField
        (createProgressUpdateADF "Nov 1, 2025".toList "A".toList "B".toList)
        (deliveredOnly "C".toList) today).weeklyUpdate = "Nov 1, 2025".toList ∧
    (updateProgressField
        (createProgressUpdateADF "Nov 1, 2025".toList "A".toList "B".toList)
        (deliveredOnly "C".toList) today).delivered = "C".toList ∧
    (updateProgressField
        (createProgressUpdateADF "Nov 1, 2025".toList "A".toList "B".toList)
        (deliveredOnly "C".toList) today).whatsNext = "B".toList :=
  ⟨rfl, rfl, rfl, rfl, rfl, rfl, rfl, rfl, rfl⟩

/-- Claim C6: a legacy panel-encoded document whose panel heading
extracts to `ℹ️ Update for week of December 1, 2025:` and whose bullet
list holds the single item `Shipped X` parses to
`weekOf = "December 1, 2025 - Shipped X"` (date token between `week of`
and the colon, bullet items appended after a ` - ` separator). -/
theorem claim_C6_panel_legacy :
    parseProgressUpdateADF
        (panelDoc "ℹ️ Update for week of December 1, 2025:".toList ["Shipped X".toList])
      = { weeklyUpdate := "December 1, 2025 - Shipped X".toList,
          delivered := [], whatsNext := [] } := by
  decide

/-- Claim C5: the Completion Percentage wire value is exactly the input
divided by 100 (a 0.0–1.0 fraction), applied exactly once on the direct
field-update path (by id and by display name) and exactly once on the
issue-creation path; concretely, input 42 yields 0.42. JS numbers are
modelled as rationals, where the division is exact. -/
theorem claim_C5_percentage_coercion (v : ℚ) (cu tp30 cd : Str) :
    updateIssueFieldWire "customfield_15116".toList (.num v)
        = .ok ("customfield_15116".toList, .num (v / 100)) ∧
    updateIssueFieldWire "Completion Percentage".toList (.num v)
        = .ok ("customfield_15116".toList, .num (v / 100)) ∧
    createIssueFields (percentageIssueOptions v) cu tp30 cd
        = .ok [("project".toList, .keyObj "PROJ".toList),
               ("issuetype".toList, .nameObj "Task".toList),
               ("summary".toList, .strv "S".toList),
               ("customfield_15116".toList, .num (v / 100))] ∧
    updateIssueFieldWire "customfield_15116".toList (.num 42)
        = .ok ("customfield_15116".toList, .num (0.42 : ℚ)) := by
  refine ⟨rfl, rfl, rfl, ?_⟩
  show Except.ok (_, JSVal.num ((42 : ℚ) / 100)) = Except.ok (_, JSVal.num (0.42 : ℚ))
  norm_num

/-! ## The generator's structure (claim C7) -/

theorem endsWithColon_concat (x : Str) : endsWithColon (x ++ [':']) = true := by
  simp [endsWithColon, List.getLast?_concat]

theorem endsWithColon_header (H : Str) (d : Str) :
    endsWithColon (H ++ ' ' :: d) = endsWithColon d := by
  rcases List.eq_nil_or_concat d with hd | ⟨ds, c, hd⟩
  · subst hd
    simp [endsWithColon, List.getLast?_concat]
  · subst hd
    rw [List.concat_eq_append]
    have harr : H ++ ' ' :: (ds ++ [c]) = (H ++ ' ' :: ds) ++ [c] := by simp
    rw [harr]
    unfold endsWithColon
    rw [List.getLast?_concat, List.getLast?_concat]

/-- Claim C7 (counterexample): the generated document for
`("W", "A", "B")` has no strong mark on the delivered paragraph's text
run (its text `What we've delivered so far: A` does not end with a
colon), while the week-of paragraph run is strong — refuting "the strong
mark is present on the header run of every section". -/
theorem claim_C7_counterexample :
    hasStrongRun (nthBlock (createProgressUpdateADF "W".toList "A".toList "B".toList) 1)
        = false ∧
    hasStrongRun (nthBlock (createProgressUpdateADF "W".toList "A".toList "B".toList) 2)
        = false ∧
    hasStrongRun (nthBlock (createProgressUpdateADF "W".toList "A".toList "B".toList) 0)
        = true := by
  refine ⟨by decide, by decide, by decide⟩

/-- Claim C7 (amended): the generator emits, for every triple, exactly
three paragraphs each led by its emoji marker and holding one text run;
the run's strong mark is present exactly when the paragraph's full text
ends with a colon — always on the week-of run, and on the
delivered/what's-next runs precisely when the section content itself
ends with a colon (in particular not when it is empty or ordinary
text). -/
theorem claim_C7_generator_structure (w d n : Str) :
    createProgressUpdateADF w d n = ADF.node (some "doc".toList) none false none (some [
      ADF.node (some "paragraph".toList) none false none (some [
        ADF.node (some "emoji".toList) none false (some infoEmoji) none,
        ADF.node (some "text".toList) (some (' ' :: (litWeek ++ w ++ [':'])))
          true none none]),
      ADF.node (some "paragraph".toList) none false none (some [
        ADF.node (some "emoji".toList) none false (some checkEmoji) none,
        ADF.node (some "text".toList) (some (' ' :: (deliveredHeader ++ ' ' :: d)))
          (endsWithColon d) none none]),
      ADF.node (some "paragraph".toList) none false none (some [
        ADF.node (some "emoji".toList) none false (some questionEmoji) none,
        ADF.node (some "text".toList) (some (' ' :: (whatsNextHeader ++ ' ' :: n)))
          (endsWithColon n) none none])]) := by
  unfold createProgressUpdateADF createADFParagraph
  rw [endsWithColon_concat (litWeek ++ w)]
  rw [endsWithColon_header deliveredHeader d]
  rw [endsWithColon_header whatsNextHeader n]

/-- Claim C8 (counterexample): a paragraph whose text differs from the
recognized what's-next header only in apostrophe style (curly `’` for
straight `'`), and one differing from the week-of header only in letter
case, both parse to the defaults — the parser does not recognize them,
refuting case- and apostrophe-tolerance. -/
theorem claim_C8_counterexample :
    parseProgressUpdateADF (paraDoc ("What".toList ++ curlyApos :: "s next: B".toList))
        = defaultTemplate ∧
    parseProgressUpdateADF (paraDoc "UPDATE FOR WEEK OF December 1, 2025:".toList)
        = defaultTemplate := by
  refine ⟨by decide, by decide⟩

/-- Claim C8 (amended): header matching is exact: case-sensitive and
accepting only the straight apostrophe (the source's character classes
hold the straight apostrophe twice, and the panel normalization replaces
straight with straight). The exact phrases are recognized in both the
paragraph and the panel encodings. -/
theorem claim_C8_exact_headers :
    (parseProgressUpdateADF (paraDoc (deliveredHeader ++ ' ' :: "X".toList))).delivered
        = "X".toList ∧
    (parseProgressUpdateADF (paraDoc (whatsNextHeader ++ ' ' :: "Y".toList))).whatsNext
        = "Y".toList ∧
    (parseProgressUpdateADF (paraDoc (litWeek ++ "December 1, 2025".toList ++ [':']))).weeklyUpdate
        = "December 1, 2025".toList ∧
    (parseProgressUpdateADF (panelDoc (whatsNextHeader ++ [':']) ["Z".toList])).whatsNext
        = "Z".toList ∧
    normalizeApos (curlyApos :: []) = curlyApos :: [] := by
  refine ⟨by decide, by decide, by decide, by decide, by decide⟩

/-! ## Extraction on text-free subtrees (claim C9) -/

theorem trim_all_ws {x : Str} (h : ∀ c ∈ x, isWS c = true) : trim x = [] := by
  have h1 : trimLeft x = [] := by
    induction x with
    | nil => rfl
    | cons c cs ih =>
      rw [trimLeft_cons_ws (h c (by simp))]
      exact ih (fun a ha => h a (by simp [ha]))
  show trimRight (trimLeft x) = []
  rw [h1]
  rfl

theorem joinSp_all_nil {L : List Str} (h : ∀ s ∈ L, s = []) :
    ∀ c ∈ joinSp L, c = ' ' := by
  induction L with
  | nil => intro c hc; simp [joinSp] at hc
  | cons x xs ih =>
    intro c hc
    cases xs with
    | nil =>
      rw [show joinSp [x] = x from rfl, h x (by simp)] at hc
      simp at hc
    | cons y ys =>
      rw [show joinSp (x :: y :: ys) = x ++ ' ' :: joinSp (y :: ys) from rfl,
        h x (by simp)] at hc
      rcases List.mem_cons.mp hc with hc1 | hc2
      · exact hc1
      · exact ih (fun s hs => h s (by simp [hs])) c hc2

mutual

theorem noText_extractNode (node : ADF) (h : noTextNode node = true) :
    extractTextFromADFNode node = [] := by
  cases node with
  | scalar => rfl
  | node ty tx st a4 content =>
    unfold noTextNode at h
    rw [Bool.and_eq_true] at h
    have hcond : ¬ (ty = some "text".toList ∧ txTruthy tx = true) := by
      rintro ⟨he, ht⟩
      have := h.1
      rw [he] at this
      simp [ht] at this
    cases content with
    | none =>
      unfold extractTextFromADFNode
      rw [if_neg (fun hx => hcond ⟨hx.1, hx.2⟩)]
    | some l =>
      unfold extractTextFromADFNode
      rw [if_neg (fun hx => hcond ⟨hx.1, hx.2⟩)]
      refine trim_all_ws (fun c hc => ?_)
      rw [joinSp_all_nil (noText_extractList l h.2) c hc]
      rfl

theorem noText_extractList (l : List ADF) (h : noTextNodeList l = true) :
    ∀ s ∈ extractList l, s = [] := by
  cases l with
  | nil => intro s hs; simp [extractList] at hs
  | cons x xs =>
    unfold noTextNodeList at h
    rw [Bool.and_eq_true] at h
    intro s hs
    rw [show extractList (x :: xs) = extractTextFromADFNode x :: extractList xs from rfl]
      at hs
    rcases List.mem_cons.mp hs with h1 | h2
    · rw [h1]
      exact noText_extractNode x h.1
    · exact noText_extractList xs h.2 s h2

end

mutual

theorem noText_extractInner (node : ADF) (h : noTextNode node = true) :
    ∀ c ∈ extractInner node, c = ' ' := by
  cases node with
  | scalar => intro c hc; simp [extractInner] at hc
  | node ty tx st a4 content =>
    unfold noTextNode at h
    rw [Bool.and_eq_true] at h
    have hcond : ¬ (ty = some "text".toList ∧ txTruthy tx = true) := by
      rintro ⟨he, ht⟩
      have := h.1
      rw [he] at this
      simp [ht] at this
    cases content with
    | none =>
      unfold extractInner
      rw [if_neg (fun hx => hcond ⟨hx.1, hx.2⟩)]
      intro c hc
      simp at hc
    | some l =>
      unfold extractInner
      rw [if_neg (fun hx => hcond ⟨hx.1, hx.2⟩)]
      exact noText_joinSpInner l h.2

theorem noText_joinSpInner (l : List ADF) (h : noTextNodeList l = true) :
    ∀ c ∈ joinSpInner l, c = ' ' := by
  cases l with
  | nil => intro c hc; simp [joinSpInner] at hc
  | cons x xs =>
    unfold noTextNodeList at h
    rw [Bool.and_eq_true] at h
    cases xs with
    | nil =>
      intro c hc
      rw [show joinSpInner [x] = extractInner x from rfl] at hc
      exact noText_extractInner x h.1 c hc
    | cons y ys =>
      intro c hc
      rw [show joinSpInner (x :: y :: ys) = extractInner x ++ ' ' :: joinSpInner (y :: ys)
        from rfl] at hc
      rcases List.mem_append.mp hc with h1 | h2
      · exact noText_extractInner x h.1 c h1
      · rcases List.mem_cons.mp h2 with h3 | h4
        · exact h3
        · exact noText_joinSpInner (y :: ys) h.2 c h4

end

/-- Claim C9 (counterexample): a table node (an unrecognized block kind)
with a textual descendant extracts that text, not the empty string —
extraction recurses through the content of any node kind. -/
theorem claim_C9_counterexample :
    extractTextFromADFNode (tableWithText "X".toList) = "X".toList ∧
    extractTextFromADFNode (tableWithText "X".toList) ≠ [] ∧
    extractTextFromADF (ADF.node (some "doc".toList) none false none
      (some [tableWithText "X".toList])) = "X".toList := by
  refine ⟨by decide, by decide, by decide⟩

/-- Claim C9 (amended): the node-level extractor is total — its content
recursion is `Array.isArray`-guarded, it returns a string with no error
outcome, and on every embedded wire value it agrees with the `ADF`
extraction — and a subtree with no textual descendant (in particular an
unrecognized block kind such as a table with no text leaves) extracts
as the empty string under both extractors. The document-level
`extractTextFromADF`, whose inner recursion has no `Array.isArray`
guard, never raises on array-shaped documents, but raises a `TypeError`
when a node's `content` is a truthy non-array (e.g. `{content: "ab"}`).
An unrecognized subtree that does contain text nodes contributes their
text rather than extracting as empty. -/
theorem claim_C9_no_text_extract :
    (∀ node : ADF, noTextNode node = true →
      extractTextFromADFNode node = [] ∧ extractTextFromADF node = []) ∧
    (∀ d : ADF, extractNodeV (embedADF d) = extractTextFromADFNode d) ∧
    (∀ d : ADF, extractTextFromADFV (embedADF d) = .ok (extractTextFromADF d)) ∧
    extractTextFromADFV (.vobj none none none (some (.vstr "ab".toList)))
      = .error .typeError := by
  refine ⟨fun node h => ⟨noText_extractNode node h, ?_⟩, embed_extractNode,
    embed_extractTextDoc, rfl⟩
  cases node with
  | scalar => rfl
  | node ty tx st a4 content =>
    cases content with
    | none => rfl
    | some l =>
      unfold noTextNode at h
      rw [Bool.and_eq_true] at h
      show trim (joinSpInner l) = []
      refine trim_all_ws (fun c hc => ?_)
      rw [noText_joinSpInner l h.2 c hc]
      decide

/-- Claim C9 (witness): a table with a row but no text leaves extracts
as the empty string under both extraction functions. -/
theorem claim_C9_witness :
    extractTextFromADFNode (ADF.node (some "table".toList) none false none
        (some [ADF.node (some "tableRow".toList) none false none (some [])])) = [] ∧
    extractTextFromADF (ADF.node (some "table".toList) none false none
        (some [ADF.node (some "tableRow".toList) none false none (some [])])) = [] :=
  claim_C9_no_text_extract.1 _ (by decide)

/-- Claim C10: issue creation applies the TSSE defaults exactly when the
project key upper-cases (with `toUpperCase`'s Unicode full case mapping,
so e.g. the key `tße` qualifies via ß → SS) to `TSSE`: the assignee
defaults to the current authenticated user's account id, labels to
`["EngProd", "TSSP"]`, and the due date to today plus 30 days (a
nonempty date string); for every other project key, none of the three
fields is present when the caller does not supply them. -/
theorem claim_C10_tsse_defaults (pk it sm cu tp30 cd : Str) (htp : tp30 ≠ []) :
    (jsToUpper pk = "TSSE".toList →
      createIssueFields (basicIssueOptions pk it sm) cu tp30 cd
        = .ok [("project".toList, .keyObj pk),
               ("issuetype".toList, .nameObj it),
               ("summary".toList, .strv sm),
               ("assignee".toList, .account cu),
               ("labels".toList, .strList ["EngProd".toList, "TSSP".toList]),
               ("duedate".toList, .strv tp30)]) ∧
    (jsToUpper pk ≠ "TSSE".toList →
      createIssueFields (basicIssueOptions pk it sm) cu tp30 cd
        = .ok [("project".toList, .keyObj pk),
               ("issuetype".toList, .nameObj it),
               ("summary".toList, .strv sm)]) := by
  constructor
  · intro h
    have hP : jsToUpper pk = ['T', 'S', 'S', 'E'] := h
    simp only [createIssueFields, basicIssueOptions]
    simp [hP, htp]
    rfl
  · intro h
    have hN : jsToUpper pk ≠ ['T', 'S', 'S', 'E'] := fun hx => h hx
    simp only [createIssueFields, basicIssueOptions]
    simp [hN]
    rfl

/-- Claim C10 (witness): the defaults at the concrete keys `tße` (whose
`toUpperCase` is `TSSE` through the special casing ß → SS) and `ABC`. -/
theorem claim_C10_witness :
    createIssueFields (basicIssueOptions "tße".toList "Task".toList "S".toList)
        "ACC".toList "2026-01-01".toList "October 11, 2026".toList
      = .ok [("project".toList, .keyObj "tße".toList),
             ("issuetype".toList, .nameObj "Task".toList),
             ("summary".toList, .strv "S".toList),
             ("assignee".toList, .account "ACC".toList),
             ("labels".toList, .strList ["EngProd".toList, "TSSP".toList]),
             ("duedate".toList, .strv "2026-01-01".toList)] ∧
    createIssueFields (basicIssueOptions "ABC".toList "Task".toList "S".toList)
        "ACC".toList "2026-01-01".toList "October 11, 2026".toList
      = .ok [("project".toList, .keyObj "ABC".toList),
             ("issuetype".toList, .nameObj "Task".toList),
             ("summary".toList, .strv "S".toList)] :=
  ⟨(claim_C10_tsse_defaults "tße".toList "Task".toList "S".toList "ACC".toList
      "2026-01-01".toList "October 11, 2026".toList (by decide)).1 (by decide),
   (claim_C10_tsse_defaults "ABC".toList "Task".toList "S".toList "ACC".toList
      "2026-01-01".toList "October 11, 2026".toList (by decide)).2 (by decide)⟩

/-! ## The refresh-date computation (claim C4) -/

theorem isWS_false_of_upper {c : Char} (h : isUpper c = true) : isWS c = false := by
  simp only [isUpper, Bool.and_eq_true, decide_eq_true_eq] at h
  by_contra h2
  rw [Bool.not_eq_false] at h2
  simp only [isWS, Bool.or_eq_true, Bool.and_eq_true, decide_eq_true_eq] at h2
  omega

theorem isWS_false_of_digit {c : Char} (h : isDigitC c = true) : isWS c = false := by
  simp only [isDigitC, Bool.and_eq_true, decide_eq_true_eq] at h
  by_contra h2
  rw [Bool.not_eq_false] at h2
  simp only [isWS, Bool.or_eq_true, Bool.and_eq_true, decide_eq_true_eq] at h2
  omega

theorem isDateFormat_ne_nil {today : Str} (h : IsDateFormat today) : today ≠ [] := by
  obtain ⟨u, ml, dd, y1, y2, y3, y4, hs, -⟩ := h
  rw [hs]
  simp

theorem isDateFormat_mem {today : Str} (h : IsDateFormat today) :
    ∀ x ∈ today,
      isUpper x = true ∨ isLower x = true ∨ isDigitC x = true ∨ x = ' ' ∨ x = ',' := by
  obtain ⟨u, ml, dd, y1, y2, y3, y4, hs, hu, -, hmla, -, hdda, hy⟩ := h
  rw [hs]
  intro x hx
  rcases List.mem_cons.mp hx with h1 | hx
  · left
    rw [h1]
    exact hu
  rcases List.mem_append.mp hx with hx | hx
  · rcases List.mem_append.mp hx with hx | hx
    · right; left
      exact List.all_eq_true.mp hmla x hx
    rcases List.mem_cons.mp hx with h1 | hx
    · right; right; right; left
      exact h1
    · right; right; left
      exact List.all_eq_true.mp hdda x hx
  · rcases List.mem_cons.mp hx with h1 | hx
    · right; right; right; right
      exact h1
    rcases List.mem_cons.mp hx with h1 | hx
    · right; right; right; left
      exact h1
    · right; right; left
      exact List.all_eq_true.mp hy x hx

theorem isDateFormat_no_colon {today : Str} (h : IsDateFormat today) : ':' ∉ today := by
  intro hmem
  rcases isDateFormat_mem h ':' hmem with h1 | h1 | h1 | h1 | h1 <;>
    exact absurd h1 (by decide)

theorem isDateFormat_trim {today : Str} (h : IsDateFormat today) : trim today = today := by
  obtain ⟨u, ml, dd, y1, y2, y3, y4, hs, hu, -, -, -, -, hy⟩ := h
  have hy4 : isDigitC y4 = true := List.all_eq_true.mp hy y4 (by simp)
  rw [hs]
  have harr : (u :: ml ++ ' ' :: dd ++ ',' :: ' ' :: [y1, y2, y3, y4] : Str)
      = u :: ((ml ++ ' ' :: dd ++ [',', ' ', y1, y2, y3]) ++ [y4]) := by
    simp
  rw [harr, trim_eq_self (isWS_false_of_upper hu) (isWS_false_of_digit hy4)]

theorem wsDashWs_nil : wsDashWs [] = [] := rfl

theorem wsDashWs_dash {c : Str} (hc : trimLeft c = c) :
    wsDashWs (' ' :: '-' :: ' ' :: c) = c := by
  unfold wsDashWs
  have h1 : (' ' :: '-' :: ' ' :: c).dropWhile isWS = '-' :: ' ' :: c := by
    rw [List.dropWhile_cons, if_pos (by decide), List.dropWhile_cons, if_neg (by decide)]
  rw [h1]
  show (' ' :: c).dropWhile isWS = c
  rw [List.dropWhile_cons, if_pos (by decide)]
  exact hc

theorem dateStripAux_date {today : Str} (hdate : IsDateFormat today) (rest : Str) :
    dateStripAux (today ++ rest) = some (wsDashWs rest) := by
  obtain ⟨u, ml, dd, y1, y2, y3, y4, hs, hu, hml, hmla, hddl, hdda, hy⟩ := hdate
  subst hs
  have harr : ((u :: ml ++ ' ' :: dd ++ ',' :: ' ' :: [y1, y2, y3, y4] : Str) ++ rest)
      = u :: (ml ++ ' ' :: (dd ++ ',' :: ' ' :: (y1 :: y2 :: y3 :: y4 :: rest))) := by
    simp
  rw [harr]
  show (if isUpper u then
    dateStripMonth (ml ++ ' ' :: (dd ++ ',' :: ' ' :: (y1 :: y2 :: y3 :: y4 :: rest)))
    else none) = _
  rw [if_pos hu]
  unfold dateStripMonth
  have hml' : ∀ x ∈ ml, isLower x = true := fun x hx => List.all_eq_true.mp hmla x hx
  have htw1 : (ml ++ ' ' :: (dd ++ ',' :: ' ' :: (y1 :: y2 :: y3 :: y4 :: rest))).takeWhile
      isLower = ml := takeWhile_append_stop hml' (by decide) _
  rw [htw1, if_neg (by simpa using hml), List.drop_left]
  have hdd' : ∀ x ∈ dd, isDigitC x = true := fun x hx => List.all_eq_true.mp hdda x hx
  have htw2 : (dd ++ ',' :: ' ' :: (y1 :: y2 :: y3 :: y4 :: rest)).takeWhile isDigitC
      = dd := takeWhile_append_stop hdd' (by decide) _
  show (if ((dd ++ ',' :: ' ' :: (y1 :: y2 :: y3 :: y4 :: rest)).takeWhile isDigitC).length = 1
      ∨ ((dd ++ ',' :: ' ' :: (y1 :: y2 :: y3 :: y4 :: rest)).takeWhile isDigitC).length = 2
    then dateStripYear ((dd ++ ',' :: ' ' :: (y1 :: y2 :: y3 :: y4 :: rest)).drop
      ((dd ++ ',' :: ' ' :: (y1 :: y2 :: y3 :: y4 :: rest)).takeWhile isDigitC).length)
    else none) = _
  rw [htw2, if_pos hddl, List.drop_left]
  show (if ((y1 :: y2 :: y3 :: y4 :: rest).take 4).length = 4
      ∧ ((y1 :: y2 :: y3 :: y4 :: rest).take 4).all isDigitC
    then some (wsDashWs ((y1 :: y2 :: y3 :: y4 :: rest).drop 4)) else none) = _
  rw [if_pos ⟨rfl, hy⟩]
  rfl

theorem dateStrip_date {today : Str} (hdate : IsDateFormat today) (rest : Str) :
    dateStrip (today ++ rest) = wsDashWs rest := by
  unfold dateStrip
  rw [dateStripAux_date hdate rest]
  rfl

theorem placeholderStrip_nil : placeholderStrip [] = [] := rfl

theorem refreshWeekly_of_refreshed {today : Str} (hdate : IsDateFormat today) {c : Str}
    (hct : trim c = c) (hcp : placeholderStrip c = c) :
    refreshWeekly today (if c = [] then today else today ++ sepDash ++ c)
      = if c = [] then today else today ++ sepDash ++ c := by
  rcases eq_or_ne c [] with hc | hc
  · subst hc
    rw [if_pos rfl]
    unfold refreshWeekly
    have h1 : dateStrip today = [] := by
      have := dateStrip_date hdate []
      rwa [List.append_nil, wsDashWs_nil] at this
    rw [h1, placeholderStrip_nil, trim_nil, if_pos rfl]
  · rw [if_neg hc]
    unfold refreshWeekly
    have h1 : dateStrip (today ++ sepDash ++ c) = c := by
      have harr : today ++ sepDash ++ c = today ++ (' ' :: '-' :: ' ' :: c) := by
        simp [sepDash]
      rw [harr, dateStrip_date hdate, wsDashWs_dash (trimLeft_of_trim_fix hct)]
    rw [h1, hcp, hct, if_neg hc]

theorem parseParagraph_genP2_any (st : Option Sect × ProgressTemplate) {d : Str}
    (hd : containsSub litWeek d = false) :
    (parseParagraph st (createADFParagraph (deliveredHeader ++ ' ' :: d) (some checkEmoji))).1
        = some Sect.delivered ∧
    (parseParagraph st
        (createADFParagraph (deliveredHeader ++ ' ' :: d) (some checkEmoji))).2.weeklyUpdate
        = st.2.weeklyUpdate := by
  have hx := extract_createADFParagraph (deliveredHeader ++ ' ' :: d) checkEmoji
  have hha := @trim_header_any deliveredHeader 'W' ("hat we".toList ++ aposC :: dLitB)
    (by decide) (by decide) (by decide) d
  rw [hha] at hx
  rcases htr : trimRight (' ' :: d) with _ | ⟨r0, rr⟩
  · rw [htr, if_pos rfl] at hx
    simp only [parseParagraph, parseParagraphText, hx]
    rw [weeklyMatch_eq_none (by decide),
      show deliveredMatch deliveredHeader = some [] from by decide]
    exact ⟨rfl, rfl⟩
  · rw [htr, if_neg (by simp)] at hx
    have hni : ¬ litWeek <:+: (deliveredHeader ++ r0 :: rr) := by
      intro hinf
      rw [litWeek_eq] at hinf
      rcases infix_append_cases hinf with h1 | h1
      · exact absurd h1 (by decide)
      · have hpre : (r0 :: rr) <+: (' ' :: d) := by
          obtain ⟨wsfx, hwse, -⟩ := trimRight_prefix (' ' :: d)
          rw [htr] at hwse
          exact ⟨wsfx, hwse.symm⟩
        have h2 : litWeek <:+: (' ' :: d) := by
          rw [litWeek_eq]
          exact h1.trans hpre.isInfix
        rw [show (' ' :: d) = [' '] ++ d from rfl, litWeek_eq] at h2
        rcases infix_append_cases h2 with h3 | h3
        · exact absurd h3 (by decide)
        · rw [← litWeek_eq] at h3
          exact not_infix_of_containsSub_false hd h3
    simp only [parseParagraph, parseParagraphText, hx]
    rw [weeklyMatch_eq_none hni, deliveredMatch_pos0 (r0 :: rr)]
    exact ⟨rfl, rfl⟩

theorem weeklyMatch_genP3_none {n : Str} (hn : containsSub litWeek n = false) :
    weeklyMatch (extractTextFromADFNode
      (createADFParagraph (whatsNextHeader ++ ' ' :: n) (some questionEmoji))) = none := by
  rw [extract_createADFParagraph]
  apply weeklyMatch_eq_none
  intro hinf
  exact not_litWeek_infix_header (by decide) hn (hinf.trans (trim_isInfix_self _))

theorem parseParagraph_preserve {b : ADF} (st : Option Sect × ProgressTemplate)
    (h1 : weeklyMatch (extractTextFromADFNode b) = none)
    (h2 : st.1 ≠ some Sect.weekly) :
    (parseParagraph st b).1 ≠ some Sect.weekly ∧
    (parseParagraph st b).2.weeklyUpdate = st.2.weeklyUpdate := by
  simp only [parseParagraph, parseParagraphText, h1]
  cases hdm : deliveredMatch (extractTextFromADFNode b) with
  | some g => exact ⟨by simp, rfl⟩
  | none =>
    cases hwm : whatsNextMatch (extractTextFromADFNode b) with
    | some g => exact ⟨by simp, rfl⟩
    | none =>
      by_cases htr : trim (extractTextFromADFNode b) ≠ []
      · rw [if_pos htr]
        cases hcur : st.1 with
        | none => exact ⟨by simp, rfl⟩
        | some s =>
          cases s with
          | weekly => exact absurd hcur h2
          | delivered => exact ⟨by simp, rfl⟩
          | whatsNext => exact ⟨by simp, rfl⟩
      · rw [if_neg htr]
        exact ⟨h2, rfl⟩

theorem parse_P2P3_weekly (st : Option Sect × ProgressTemplate) {d n : Str}
    (hd : containsSub litWeek d = false) (hn : containsSub litWeek n = false) :
    ((parseParagraph (parseParagraph st
        (createADFParagraph (deliveredHeader ++ ' ' :: d) (some checkEmoji)))
        (createADFParagraph (whatsNextHeader ++ ' ' :: n) (some questionEmoji))).2).weeklyUpdate
      = st.2.weeklyUpdate := by
  obtain ⟨hs2, hw2⟩ := parseParagraph_genP2_any st hd
  obtain ⟨-, hp3⟩ := parseParagraph_preserve _ (weeklyMatch_genP3_none hn)
    (by rw [hs2]; simp)
  rw [hp3, hw2]

theorem updateProgressField_refresh_weekly (x : ADF) (today : Str) :
    (updateProgressField x refreshOnly today).weeklyUpdate
      = refreshWeekly today (parseProgressUpdateADF x).weeklyUpdate := rfl

theorem updateProgressField_refresh_document (x : ADF) (today : Str) :
    (updateProgressField x refreshOnly today).document
      = createProgressUpdateADF
          (refreshWeekly today (parseProgressUpdateADF x).weeklyUpdate)
          (parseProgressUpdateADF x).delivered
          (parseProgressUpdateADF x).whatsNext := rfl

theorem parse_generate_weekly {w d n : Str} (hne : w ≠ []) (hcw : ':' ∉ w)
    (htw : trim w = w) (hd : containsSub litWeek d = false)
    (hn : containsSub litWeek n = false) :
    (parseProgressUpdateADF (createProgressUpdateADF w d n)).weeklyUpdate = w := by
  show ((List.foldl parseStep (none, defaultTemplate)
    [createADFParagraph (litWeek ++ w ++ [':']) (some infoEmoji),
     createADFParagraph (deliveredHeader ++ ' ' :: d) (some checkEmoji),
     createADFParagraph (whatsNextHeader ++ ' ' :: n) (some questionEmoji)]).2).weeklyUpdate = w
  simp only [List.foldl_cons, List.foldl_nil]
  rw [parseStep_genParagraph, parseStep_genParagraph, parseStep_genParagraph]
  rw [parseParagraph_genP1 _ hne hcw htw]
  rw [parse_P2P3_weekly _ hd hn]

set_option maxHeartbeats 1600000 in
/-- Claim C4 (counterexample): on the stored document whose paragraph
reads `Update for week of Dec: a:b`, refreshing the date twice at the
same current date changes `weekOf` a second time (the first refresh
leaves a colon in the narrative tail, which re-splits on re-parse). -/
theorem claim_C4_counterexample :
    (updateProgressField
        (updateProgressField (paraDoc "Update for week of Dec: a:b".toList)
          refreshOnly "May 1, 2025".toList).document
        refreshOnly "May 1, 2025".toList).weeklyUpdate
      ≠ (updateProgressField (paraDoc "Update for week of Dec: a:b".toList)
          refreshOnly "May 1, 2025".toList).weeklyUpdate := by
  decide

/-- Claim C4 (amended): refreshing the date twice in succession at the
same current-date value leaves `weekOf` unchanged after the second run,
provided the current date is a formatted `Month D, YYYY` date and the
stored document is benign: the narrative tail left by the first strip
contains no colon and does not itself start with a `[date]` placeholder
prefix, and the parsed delivered/what's-next sections do not contain the
week-of header phrase. -/
theorem claim_C4_refresh_idempotent (adf : ADF) (today : Str) (hdate : IsDateFormat today)
    (hc1 : ':' ∉ trim (placeholderStrip (dateStrip
        (parseProgressUpdateADF adf).weeklyUpdate)))
    (hc2 : placeholderStrip (trim (placeholderStrip (dateStrip
          (parseProgressUpdateADF adf).weeklyUpdate)))
        = trim (placeholderStrip (dateStrip (parseProgressUpdateADF adf).weeklyUpdate)))
    (hd : containsSub litWeek (parseProgressUpdateADF adf).delivered = false)
    (hn : containsSub litWeek (parseProgressUpdateADF adf).whatsNext = false) :
    (updateProgressField (updateProgressField adf refreshOnly today).document
        refreshOnly today).weeklyUpdate
      = (updateProgressField adf refreshOnly today).weeklyUpdate := by
  have hct : trim (trim (placeholderStrip (dateStrip
      (parseProgressUpdateADF adf).weeklyUpdate)))
      = trim (placeholderStrip (dateStrip (parseProgressUpdateADF adf).weeklyUpdate)) :=
    trim_trim _
  have hrw : refreshWeekly today (parseProgressUpdateADF adf).weeklyUpdate
      = if trim (placeholderStrip (dateStrip (parseProgressUpdateADF adf).weeklyUpdate)) = []
        then today
        else today ++ sepDash ++
          trim (placeholderStrip (dateStrip (parseProgressUpdateADF adf).weeklyUpdate)) := rfl
  have htoday0 : today ≠ [] := isDateFormat_ne_nil hdate
  have htodayt : trim today = today := isDateFormat_trim hdate
  have hW1ne : refreshWeekly today (parseProgressUpdateADF adf).weeklyUpdate ≠ [] := by
    rw [hrw]
    rcases eq_or_ne (trim (placeholderStrip (dateStrip
        (parseProgressUpdateADF adf).weeklyUpdate))) [] with hcn | hcn
    · rw [if_pos hcn]
      exact htoday0
    · rw [if_neg hcn]
      intro hx
      obtain ⟨t0, tt, ht0⟩ := List.exists_cons_of_ne_nil htoday0
      rw [ht0] at hx
      simp at hx
  have hW1c : ':' ∉ refreshWeekly today (parseProgressUpdateADF adf).weeklyUpdate := by
    rw [hrw]
    rcases eq_or_ne (trim (placeholderStrip (dateStrip
        (parseProgressUpdateADF adf).weeklyUpdate))) [] with hcn | hcn
    · rw [if_pos hcn]
      exact isDateFormat_no_colon hdate
    · rw [if_neg hcn]
      intro hx
      rcases List.mem_append.mp hx with hx1 | hx1
      · rcases List.mem_append.mp hx1 with hx2 | hx2
        · exact isDateFormat_no_colon hdate hx2
        · exact absurd hx2 (by decide)
      · exact hc1 hx1
  have hW1t : trim (refreshWeekly today (parseProgressUpdateADF adf).weeklyUpdate)
      = refreshWeekly today (parseProgressUpdateADF adf).weeklyUpdate := by
    rw [hrw]
    rcases eq_or_ne (trim (placeholderStrip (dateStrip
        (parseProgressUpdateADF adf).weeklyUpdate))) [] with hcn | hcn
    · rw [if_pos hcn]
      exact htodayt
    · rw [if_neg hcn]
      obtain ⟨t0, tt, ht0⟩ := List.exists_cons_of_ne_nil htoday0
      have h0ws : isWS t0 = false :=
        head_not_ws_of_trimLeft_fix (trimLeft_of_trim_fix htodayt) ht0
      have hleft : trimLeft (today ++ sepDash ++
          trim (placeholderStrip (dateStrip (parseProgressUpdateADF adf).weeklyUpdate)))
          = today ++ sepDash ++
            trim (placeholderStrip (dateStrip (parseProgressUpdateADF adf).weeklyUpdate)) := by
        rw [ht0]
        show trimLeft (t0 :: (tt ++ sepDash ++ _)) = _
        rw [trimLeft_cons_not_ws h0ws]
        simp
      show trimRight (trimLeft _) = _
      rw [hleft, trimRight_append,
        trimRight_of_trim_fix (trim_trim _), if_neg hcn]
  rw [updateProgressField_refresh_weekly, updateProgressField_refresh_weekly,
    updateProgressField_refresh_document]
  rw [parse_generate_weekly hW1ne hW1c hW1t hd hn]
  rw [hrw]
  exact refreshWeekly_of_refreshed hdate hct hc2

/-- Claim C4 (witness): the amended idempotence at the never-set field
(`null` stored value) and the date `December 10, 2025`. -/
theorem claim_C4_witness :
    (updateProgressField (updateProgressField ADF.scalar refreshOnly
        "December 10, 2025".toList).document refreshOnly "December 10, 2025".toList).weeklyUpdate
      = (updateProgressField ADF.scalar refreshOnly "December 10, 2025".toList).weeklyUpdate :=
  claim_C4_refresh_idempotent ADF.scalar "December 10, 2025".toList
    ⟨'D', "ecember".toList, "10".toList, '2', '0', '2', '5', by decide⟩
    (by decide) (by decide) (by decide) (by decide)

end JiraMCP
